import Mathlib

/-!
Verification of the PayloadBuffer allocator from cpp_toolbelt
(src/toolbelt/payload_buffer.h and its implementation file).

The embedding is a shallow one: the buffer memory is a byte-addressed map
from Nat to byte values, the PayloadBuffer header struct is a Lean record,
and the C++ member functions are translated into Lean functions over that
record.  All pointers into the buffer are represented by their 32-bit
offset from the buffer base (0 is the null pointer, exactly as in the
source, where offset 0 is the canonical null offset).  Loops are given
explicit fuel; every theorem either uses concrete fuel or carries enough
fuel as a hypothesis.  32-bit arithmetic is modelled with Nat plus
explicit truncation where the source stores a value into a 32-bit cell.
-/

namespace Toolbelt

set_option maxRecDepth 10000

set_option maxHeartbeats 4000000

/-- Byte-addressed memory.  Each address holds one byte; writes keep the
stored value below 256. -/
def Mem : Type := Nat → Nat

/-- Read one byte. -/
def readByte (m : Mem) (a : Nat) : Nat := m a

/-- Write one byte.  The value is truncated to 8 bits, as a store through a
byte pointer is. -/
def writeByte (m : Mem) (a v : Nat) : Mem := fun x => if x = a then v % 256 else m x

/-- Read a 32-bit little-endian word at byte address a, as the source does
through a uint32_t pointer. -/
def read32 (m : Mem) (a : Nat) : Nat :=
  m a + 256 * m (a + 1) + 65536 * m (a + 2) + 16777216 * m (a + 3)

/-- Write a 32-bit little-endian word at byte address a. -/
def write32 (m : Mem) (a v : Nat) : Mem :=
  writeByte (writeByte (writeByte (writeByte m a v) (a + 1) (v / 256)) (a + 2) (v / 65536))
    (a + 3) (v / 16777216)

/-- Zero a run of length bytes starting at a (memset with value 0). -/
def memZero (m : Mem) (a : Nat) : Nat → Mem
  | 0 => m
  | k + 1 => writeByte (memZero m a k) (a + k) (0)

/-- Copy len bytes from src to dst.  All source bytes are read from the
pre-state, which is the semantics of memmove (and of memcpy on the
non-overlapping calls in the source). -/
def memCopy (m : Mem) (dst src : Nat) : Nat → Mem
  | 0 => m
  | k + 1 => writeByte (memCopy m dst src k) (dst + k) (readByte m (src + k))

/-- Write a list of byte values starting at address a (the memcpy from a
caller-supplied byte string in SetString). -/
def memWriteList (m : Mem) (a : Nat) : List Nat → Mem
  | [] => m
  | v :: rest => memWriteList (writeByte m a v) (a + 1) rest

theorem readByte_writeByte_same (m : Mem) (a v : Nat) :
    readByte (writeByte m a v) a = v % 256 := by
  simp [readByte, writeByte]

theorem readByte_writeByte_ne (m : Mem) (a v b : Nat) (h : b ≠ a) :
    readByte (writeByte m a v) b = readByte m b := by
  simp [readByte, writeByte, h]

theorem read32_write32_same (m : Mem) (a v : Nat) :
    read32 (write32 m a v) a = v % 4294967296 := by
  simp [read32, write32, writeByte]
  omega

theorem read32_write32_disjoint (m : Mem) (a v b : Nat)
    (h : a + 4 ≤ b ∨ b + 4 ≤ a) : read32 (write32 m a v) b = read32 m b := by
  simp only [read32, write32, writeByte]
  have e0 : ¬(b = a) := by omega
  have e1 : ¬(b = a + 1) := by omega
  have e2 : ¬(b = a + 2) := by omega
  have e3 : ¬(b = a + 3) := by omega
  have f0 : ¬(b + 1 = a) := by omega
  have f1 : ¬(b + 1 = a + 1) := by omega
  have f2 : ¬(b + 1 = a + 2) := by omega
  have f3 : ¬(b + 1 = a + 3) := by omega
  have g0 : ¬(b + 2 = a) := by omega
  have g1 : ¬(b + 2 = a + 1) := by omega
  have g2 : ¬(b + 2 = a + 2) := by omega
  have g3 : ¬(b + 2 = a + 3) := by omega
  have i0 : ¬(b + 3 = a) := by omega
  have i1 : ¬(b + 3 = a + 1) := by omega
  have i2 : ¬(b + 3 = a + 2) := by omega
  have i3 : ¬(b + 3 = a + 3) := by omega
  simp only [if_neg e0, if_neg e1, if_neg e2, if_neg e3, if_neg f0, if_neg f1, if_neg f2,
    if_neg f3, if_neg g0, if_neg g1, if_neg g2, if_neg g3, if_neg i0, if_neg i1, if_neg i2,
    if_neg i3]

theorem read32_lt (m : Mem) (a : Nat) (h : ∀ x, m x < 256) :
    read32 m a < 4294967296 := by
  have h0 := h a
  have h1 := h (a + 1)
  have h2 := h (a + 2)
  have h3 := h (a + 3)
  simp only [read32]
  omega

theorem readByte_memZero_out (m : Mem) (a len b : Nat) (h : b < a ∨ a + len ≤ b) :
    readByte (memZero m a len) b = readByte m b := by
  induction len with
  | zero => rfl
  | succ k ih =>
      simp only [memZero]
      rw [readByte_writeByte_ne]
      · exact ih (by omega)
      · omega

theorem read32_memZero_out (m : Mem) (a len b : Nat) (h : b + 4 ≤ a ∨ a + len ≤ b) :
    read32 (memZero m a len) b = read32 m b := by
  simp only [read32]
  have h0 := readByte_memZero_out m a len b (by omega)
  have h1 := readByte_memZero_out m a len (b + 1) (by omega)
  have h2 := readByte_memZero_out m a len (b + 2) (by omega)
  have h3 := readByte_memZero_out m a len (b + 3) (by omega)
  simp only [readByte] at h0 h1 h2 h3
  omega

theorem readByte_memZero_in (m : Mem) (a len b : Nat) (h1 : a ≤ b) (h2 : b < a + len) :
    readByte (memZero m a len) b = 0 := by
  induction len with
  | zero => omega
  | succ k ih =>
      simp only [memZero]
      by_cases hb : b = a + k
      · subst hb; rw [readByte_writeByte_same]
      · rw [readByte_writeByte_ne _ _ _ _ hb]
        exact ih (by omega)

def kFixedBufferMagic : Nat := 0xe5f6f1c4

def kMovableBufferMagic : Nat := 0xc5f6f1c4

/-- Size of the PayloadBuffer header struct: ten 32-bit fields. -/
def headerSize : Nat := 40

/-- The PayloadBuffer header together with the arena memory and, for
moveable buffers, a ghost log of the (old_size, new_size) arguments of
every resizer invocation.  The mem map models the bytes of the region
after the header; the header fields themselves are the record fields,
exactly as the C++ struct lays them out. -/
structure PB where
  magic : Nat
  message : Nat
  hwm : Nat
  full_size : Nat
  free_list : Nat
  metadata : Nat
  bitmap0 : Nat
  bitmap1 : Nat
  bitmap2 : Nat
  bitmap3 : Nat
  mem : Mem
  resizerCalls : List (Nat × Nat)

/-- Read bitmaps[i]. -/
def getBitmap (s : PB) (i : Nat) : Nat :=
  if i = 0 then s.bitmap0 else if i = 1 then s.bitmap1 else if i = 2 then s.bitmap2
  else s.bitmap3

/-- Write bitmaps[i]. -/
def setBitmap (s : PB) (i v : Nat) : PB :=
  if i = 0 then { s with bitmap0 := v } else if i = 1 then { s with bitmap1 := v }
  else if i = 2 then { s with bitmap2 := v } else { s with bitmap3 := v }

/-- PayloadBuffer::IsValidMagic. -/
def isValidMagic (s : PB) : Bool :=
  s.magic = kFixedBufferMagic ∨ s.magic = kMovableBufferMagic

/-- PayloadBuffer::ToAddress, in offset space: the returned address is
base + offset, represented by the offset itself; null is 0.  The size
argument is the optional range bound (0 selects full_size), as in the
source. -/
def toAddress (s : PB) (off size : Nat) : Nat :=
  if off = 0 then 0
  else if ¬isValidMagic s then 0
  else if off < (if size = 0 then s.full_size else size) then off
  else 0

/-- PayloadBuffer::ToOffset, in offset space: the address base + p is
represented by p, and the function returns the offset p after the same
null, magic and range checks as the source. -/
def toOffset (s : PB) (p size : Nat) : Nat :=
  if p = 0 then 0
  else if ¬isValidMagic s then 0
  else if p < (if size = 0 then s.full_size else size) then p
  else 0

/-- PayloadBuffer::ToAddress on host addresses: base is the numeric value
of the this pointer.  Used to state the offset/address round trip. -/
def toAddressAbs (base : Nat) (s : PB) (off size : Nat) : Nat :=
  if off = 0 then 0
  else if ¬isValidMagic s then 0
  else if base + off < base + (if size = 0 then s.full_size else size) then base + off
  else 0

/-- PayloadBuffer::ToOffset on host addresses: converts the address addr
back to an offset, with the checks of the source (addr equal to this or
null gives 0, magic check, range check). -/
def toOffsetAbs (base : Nat) (s : PB) (addr size : Nat) : Nat :=
  if addr = base ∨ addr = 0 then 0
  else if ¬isValidMagic s then 0
  else if base ≤ addr ∧ addr < base + (if size = 0 then s.full_size else size) then addr - base
  else 0

/-- PayloadBuffer::UpdateHWM(BufferOffset). -/
def updateHWMOff (s : PB) (off : Nat) : PB :=
  if off > s.hwm then { s with hwm := off } else s

/-- PayloadBuffer::UpdateHWM(void p): converts the pointer with ToOffset
first. -/
def updateHWMPtr (s : PB) (p : Nat) : PB :=
  updateHWMOff s (toOffset s p 0)

/-- PayloadBuffer::InitFreeList.  The single initial free block covers
everything after the header (and after the resizer pointer slot of a
moveable buffer). -/
def initFreeList (s : PB) : PB :=
  let headerSz := if s.magic = kMovableBufferMagic then headerSize + 8 else headerSize
  let f := headerSz
  let m := write32 s.mem f (s.full_size - headerSz)
  let m2 := write32 m (f + 4) 0
  let s2 := { s with mem := m2 }
  let s3 := { s2 with free_list := toOffset s2 f 0 }
  { s3 with hwm := s3.free_list }

/-- The PayloadBuffer(uint32_t size) constructor: a fixed buffer over
zero-initialized backing memory. -/
def mkFixed (size : Nat) : PB :=
  initFreeList
    { magic := kFixedBufferMagic, message := 0, hwm := 0, full_size := size,
      free_list := 0, metadata := 0, bitmap0 := 0, bitmap1 := 0, bitmap2 := 0,
      bitmap3 := 0, mem := fun _ => 0, resizerCalls := [] }

/-- The PayloadBuffer(uint32_t size, Resizer r) constructor: a moveable
buffer.  The resizer itself lives outside the region; the ghost log
starts empty. -/
def mkMovable (size : Nat) : PB :=
  initFreeList
    { magic := kMovableBufferMagic, message := 0, hwm := 0, full_size := size,
      free_list := 0, metadata := 0, bitmap0 := 0, bitmap1 := 0, bitmap2 := 0,
      bitmap3 := 0, mem := fun _ => 0, resizerCalls := [] }

/-- PayloadBuffer::SetPresenceBit: sets bit k of the bitmap at the given
offset, addressing 32-bit word k / 32 with mask 1 shifted by k mod 32. -/
def setPresenceBit (s : PB) (bit offset : Nat) : PB :=
  let word := bit / 32
  let b := bit % 32
  let p := toAddress s offset 0
  let v := read32 s.mem (p + 4 * word) ||| ((1 <<< b) % 4294967296)
  { s with mem := write32 s.mem (p + 4 * word) v }

/-- PayloadBuffer::ClearPresenceBit: clears bit k, addressing word k / 32
with the complement of mask 1 shifted by k mod 32. -/
def clearPresenceBit (s : PB) (bit offset : Nat) : PB :=
  let word := bit / 32
  let b := bit % 32
  let p := toAddress s offset 0
  let v := read32 s.mem (p + 4 * word) &&& (4294967295 - ((1 <<< b) % 4294967296))
  { s with mem := write32 s.mem (p + 4 * word) v }

/-- PayloadBuffer::IsPresent.  Note that the source addresses word
k / 64 with shift k mod 64 here, unlike the two mutators above; a shift
amount of 32 or more is undefined behaviour on a 32-bit operand and is
modelled as truncation of the mask to 32 bits. -/
def isPresent (s : PB) (bit offset : Nat) : Bool :=
  let word := bit / 64
  let b := bit % 64
  let p := toAddress s offset 0
  (read32 s.mem (p + 4 * word) &&& ((1 <<< b) % 4294967296)) ≠ 0

/-- Per-class run length: kRunSize1 .. kRunSize4 from the header. -/
def smallBlockNum (i : Nat) : Nat :=
  if i = 0 then 32 else if i = 1 then 16 else if i = 2 then 8 else 4

/-- Per-class block size: kSmallBlockSize1 .. kSmallBlockSize4. -/
def smallBlockSize (i : Nat) : Nat :=
  if i = 0 then 16 else if i = 1 then 32 else if i = 2 then 64 else 128

/-- SmallBlockIndex: the first size class whose block size is at least n,
or none when n exceeds the largest class (the loop over
small_block_infos, unrolled over its four constexpr entries). -/
def smallBlockIndex (n : Nat) : Option Nat :=
  if n ≤ 16 then some 0 else if n ≤ 32 then some 1 else if n ≤ 64 then some 2
  else if n ≤ 128 then some 3 else none

/-- SmallBlockIndexFromEncodedSize: for a length word with the top bit
set, classify the low 8 bits with the same loop; otherwise none. -/
def smallBlockIndexFromEncodedSize (w : Nat) : Option Nat :=
  if w &&& 2147483648 = 0 then none else smallBlockIndex (w &&& 255)

/-- Bits 30..26 of a small-block length word: the bit number in the run
bitmap. -/
def decodeSmallBitNum (w : Nat) : Nat := (w >>> 26) &&& 31

/-- Bits 25..8 of a small-block length word: the index into the run
vector. -/
def decodeSmallRunIndex (w : Nat) : Nat := (w >>> 8) &&& 262143

/-- Bits 7..0 of a small-block length word: the stored logical size. -/
def decodeSmallSize (w : Nat) : Nat := w &&& 255

/-- The encoded small-block length word: bit 31 set, run-vector index at
bit 8, bitmap bit number at bit 26, size in the low byte, truncated to 32
bits as the int store is. -/
def encodeSmall (runIndex bitnum size : Nat) : Nat :=
  (2147483648 ||| (runIndex <<< 8) ||| (bitnum <<< 26) ||| (size &&& 255)) % 4294967296

/-- AlignSize: round s up to a multiple of the (power of two) alignment;
the arithmetic form of the mask computation in the source. -/
def alignSize (s alignment : Nat) : Nat :=
  (s + (alignment - 1)) - ((s + (alignment - 1)) % alignment)

/-- PayloadBuffer::VectorGet with a 4-byte element type: bounds check
against num_elements, then read element index from the data block. -/
def vectorGetU32 (s : PB) (hdrOff index : Nat) : Nat :=
  let num := read32 s.mem hdrOff
  if index ≥ num then 0
  else
    let addr := toAddress s (read32 s.mem (hdrOff + 4)) 0
    if addr = 0 then 0
    else read32 s.mem (addr + 4 * index)

/-- Writes through a next pointer: none stands for the free_list header
field, some q for the next field of the free block at offset q. -/
def writeNext (s : PB) (np : Option Nat) (v : Nat) : PB :=
  match np with
  | none => { s with free_list := v }
  | some q => { s with mem := write32 s.mem (q + 4) v }

/-- PayloadBuffer::TakeStartOfFreeBlock.  Returns the possibly grown
payload size and the updated state. -/
def takeStartOfFreeBlock (s : PB) (block numBytes length : Nat) (prev : Option Nat) :
    Nat × PB :=
  let rem := read32 s.mem block - length
  if rem ≥ 8 then
    let nextOff := block + length
    let m := write32 s.mem nextOff rem
    let m2 := write32 m (nextOff + 4) (read32 m (block + 4))
    let s2 := { s with mem := m2 }
    let s3 :=
      match prev with
      | none => { s2 with free_list := toOffset s2 nextOff 0 }
      | some q => { s2 with mem := write32 s2.mem (q + 4) (toOffset s2 nextOff 0) }
    (numBytes, updateHWMPtr s3 (nextOff + 8))
  else
    let s2 :=
      match prev with
      | none => { s with free_list := read32 s.mem (block + 4) }
      | some q => { s with mem := write32 s.mem (q + 4) (read32 s.mem (block + 4)) }
    let numBytes2 := read32 s2.mem block - 4
    (numBytes2, updateHWMOff s2 (read32 s2.mem (block + 4) + 8))

/-- PayloadBuffer::MergeWithAboveIfPossible: called from Free once the
first free block above the freed block is found. -/
def mergeWithAboveIfPossible (s : PB) (p ah fb : Nat) (np : Option Nat)
    (allocLength : Nat) : PB :=
  if p + allocLength = fb then
    let m := write32 s.mem (ah + 4) (read32 s.mem (fb + 4))
    let m2 := write32 m ah (allocLength + 4 + read32 m fb)
    writeNext { s with mem := m2 } np (toOffset s ah 0)
  else
    let m := write32 s.mem ah (read32 s.mem ah + 4)
    let m2 := write32 m (ah + 4) (toOffset s fb 0)
    writeNext { s with mem := m2 } np (toOffset s ah 0)

/-- MergeWithBelowIfPossible: merge the block at ah into the adjacent
free block prev below it; reports whether the merge happened. -/
def mergeWithBelowIfPossible (s : PB) (ah q : Nat) : Bool × PB :=
  if q + read32 s.mem q = ah then
    let m := write32 s.mem (q + 4) (read32 s.mem (ah + 4))
    let m2 := write32 m q (read32 m q + read32 m ah)
    (true, { s with mem := m2 })
  else (false, s)

/-- PayloadBuffer::InsertNewFreeBlockAtEnd. -/
def insertNewFreeBlockAtEnd (s : PB) (ah : Nat) (prev : Option Nat) (length : Nat) : PB :=
  let m := write32 s.mem ah length
  let m2 := write32 m (ah + 4) 0
  writeNext { s with mem := m2 } prev (toOffset s ah 0)

/-- PayloadBuffer::ExpandIntoFreeBlockAbove: grow a reallocated block in
place into the adjacent free block above it. -/
def expandIntoFreeBlockAbove (s : PB) (fb newLength lenDiff freeRemaining lenPtr : Nat)
    (np : Option Nat) (clear : Bool) : PB :=
  let next := toAddress s (read32 s.mem (fb + 4)) 0
  let m := write32 s.mem lenPtr newLength
  let newBlock := fb + lenDiff
  let m2 := write32 m newBlock freeRemaining
  let m3 := write32 m2 (newBlock + 4) (toOffset s next 0)
  let s2 := writeNext { s with mem := m3 } np (toOffset s newBlock 0)
  let s3 := updateHWMPtr s2 newBlock
  if clear then { s3 with mem := memZero s3.mem fb lenDiff } else s3

/-- PayloadBuffer::MergeWithFreeBlockBelow: move the payload down into
the adjacent free block below and put the free header at the tail of the
combined span.  Returns the new payload address. -/
def mergeWithFreeBlockBelow (s : PB) (p : Nat) (prevPrev : Option Nat)
    (fb newLength origLength : Nat) (clear : Bool) : Nat × PB :=
  let next := toAddress s (read32 s.mem (fb + 4)) 0
  let newb := fb + newLength + 4
  let m := write32 s.mem newb ((read32 s.mem fb + origLength) - newLength)
  let m2 := write32 m (newb + 4) (toOffset s next 0)
  let s2 := writeNext { s with mem := m2 } prevPrev (toOffset s newb 0)
  let m3 := write32 s2.mem fb newLength
  let m4 := memCopy m3 (fb + 4) p origLength
  let m5 := if clear then memZero m4 (fb + 4 + origLength) (newLength - origLength) else m4
  (fb + 4, { s2 with mem := m5 })

/-- The doubling loop of the resize path: new_size starts at twice the
old size and doubles while it is below the required full length. -/
def resizeNewSize (fuel newSize fullLength : Nat) : Nat :=
  match fuel with
  | 0 => newSize
  | f + 1 => if newSize < fullLength then resizeNewSize f (newSize * 2) fullLength else newSize

/-- Walk to the last block of the free list (read-only), as the resize
path does to find the tail. -/
def walkLast (s : PB) : Nat → Nat → Option Nat → Option Nat
  | 0, _, prev => prev
  | f + 1, fb, prev =>
      if fb = 0 then prev
      else walkLast s f (toAddress s (read32 s.mem (fb + 4)) 0) (some fb)

/-- BitMapRun::Free: clear the bit, bump the free count. -/
def freeSmallBlock (s : PB) (index bitmapIndex bitnum : Nat) : PB :=
  let hdr := toAddress s (getBitmap s index) 0
  let runOff := toAddress s (vectorGetU32 s hdr bitmapIndex) 0
  let m := write32 s.mem runOff (read32 s.mem runOff &&& (4294967295 - ((1 <<< bitnum) % 4294967296)))
  let m2 := writeByte m (runOff + 6) (readByte m (runOff + 6) + 1)
  { s with mem := m2 }

/-- The index of the lowest clear bit of a 32-bit bitmap: the
ffs-of-complement computation in BitMapRun::Allocate. -/
def lowestClearBit (w : Nat) : Nat :=
  ((List.range 32).find? (fun j => w / 2 ^ j % 2 = 0)).getD 32

/-- The inner scan of BitMapRun::Allocate: walk the run vector from the
newest entry down, take the lowest clear bit of the first run with a
free chunk, write the encoded length word, optionally clear the chunk.
The countdown argument is the loop index plus one. -/
def bitMapRunScan (s : PB) (hdr size : Nat) (clear : Bool) : Nat → Option (Nat × PB)
  | 0 => none
  | i + 1 =>
      let runOff := toAddress s (vectorGetU32 s hdr i) 0
      if readByte s.mem (runOff + 6) = 0 then bitMapRunScan s hdr size clear i
      else
        let bits := read32 s.mem runOff
        let bit := lowestClearBit bits
        let m := write32 s.mem runOff (bits ||| ((1 <<< bit) % 4294967296))
        let m2 := writeByte m (runOff + 6) (readByte m (runOff + 6) - 1)
        let runSize := readByte m2 (runOff + 4)
        let addr := runOff + 8 + bit * (runSize + 4) + 4
        let encoded := encodeSmall i bit size
        let m3 := write32 m2 (addr - 4) encoded
        let m4 := if clear then memZero m3 addr size else m3
        some (addr, { s with mem := m4 })

mutual

/-- PayloadBuffer::Allocate: zero requests fail, small requests go to the
bitmap tier when enabled, everything else walks the free list. -/
def allocate : Nat → PB → Nat → Nat → Bool → Bool → Nat × PB
  | 0, s, _, _, _, _ => (0, s)
  | fuel + 1, s, n, alignment, clear, enableSmall =>
      if n = 0 then (0, s)
      else
        match (if enableSmall then smallBlockIndex n else none) with
        | some idx => allocateSmallBlock fuel s n idx clear
        | none =>
            let n2 := alignSize n alignment
            let full := n2 + 4
            allocLoop fuel s n2 alignment full clear (toAddress s s.free_list 0) none

termination_by structural fuel => fuel

/-- The first-fit walk of Allocate, including the resize-and-retry branch
taken when the walk falls off the end of the free list.  The size_t store
of the length writes the word and zeroes the following four bytes. -/
def allocLoop : Nat → PB → Nat → Nat → Nat → Bool → Nat → Option Nat → Nat × PB
  | 0, s, _, _, _, _, _, _ => (0, s)
  | fuel + 1, s, n2, alignment, full, clear, fb, prev =>
      if fb = 0 then
        if s.magic ≠ kMovableBufferMagic then (0, s)
        else
          let oldSize := s.full_size
          let newSize := resizeNewSize full (oldSize * 2) full
          let s1 := { s with resizerCalls := s.resizerCalls ++ [(oldSize, newSize)] }
          let s2 := { s1 with full_size := newSize }
          match walkLast s2 newSize (toAddress s2 s2.free_list 0) none with
          | some prevOff =>
              if prevOff + read32 s2.mem prevOff = oldSize then
                let v := read32 s2.mem prevOff + (newSize - oldSize)
                let s3 := { s2 with mem := write32 s2.mem prevOff v }
                allocate fuel s3 n2 alignment clear true
              else
                let m := write32 s2.mem (oldSize + 4) 0
                let m2 := write32 m oldSize (newSize - oldSize)
                let s3 := { s2 with mem := m2 }
                let s4 := { s3 with mem := write32 s3.mem (prevOff + 4) (toOffset s3 oldSize 0) }
                allocate fuel s4 n2 alignment clear true
          | none =>
              let m := write32 s2.mem (oldSize + 4) 0
              let m2 := write32 m oldSize (newSize - oldSize)
              let s3 := { s2 with mem := m2 }
              let s4 := { s3 with free_list := toOffset s3 oldSize 0 }
              allocate fuel s4 n2 alignment clear true
      else
        if read32 s.mem fb ≥ full then
          let r := takeStartOfFreeBlock s fb n2 full prev
          let m := write32 r.2.mem fb r.1
          let m2 := write32 m (fb + 4) 0
          let s2 := { r.2 with mem := m2 }
          let addr := fb + 4
          let s3 := if clear then { s2 with mem := memZero s2.mem addr (full - 4) } else s2
          (addr, s3)
        else
          allocLoop fuel s n2 alignment full clear (toAddress s (read32 s.mem (fb + 4)) 0) (some fb)

termination_by structural fuel => fuel

/-- PayloadBuffer::AllocateSmallBlock: delegate to the run allocator of
the chosen size class. -/
def allocateSmallBlock : Nat → PB → Nat → Nat → Bool → Nat × PB
  | 0, s, _, _, _ => (0, s)
  | fuel + 1, s, size, index, clear =>
      bitMapRunAllocate fuel s index size (smallBlockSize index) (smallBlockNum index) clear

termination_by structural fuel => fuel

/-- BitMapRun::Allocate: lazily create the run vector of the class, then
loop scanning it for a free chunk, appending a fresh run when all runs
are full. -/
def bitMapRunAllocate : Nat → PB → Nat → Nat → Nat → Nat → Bool → Nat × PB
  | 0, s, _, _, _, _, _ => (0, s)
  | fuel + 1, s, index, n, size, num, clear =>
      if getBitmap s index = 0 then
        let r := allocateBitMapRunVector fuel s
        if r.1 = 0 then (0, r.2)
        else
          let s2 := setBitmap r.2 index r.1
          bitMapRunLoop fuel s2 (toAddress s2 (getBitmap s2 index) 0) n size num clear
      else
        bitMapRunLoop fuel s (toAddress s (getBitmap s index) 0) n size num clear

termination_by structural fuel => fuel

/-- The infinite for loop of BitMapRun::Allocate: scan, and on failure
allocate and append a new run, then scan again. -/
def bitMapRunLoop : Nat → PB → Nat → Nat → Nat → Nat → Bool → Nat × PB
  | 0, s, _, _, _, _, _ => (0, s)
  | fuel + 1, s, hdr, n, size, num, clear =>
      match bitMapRunScan s hdr size clear (read32 s.mem hdr) with
      | some r => r
      | none =>
          let r := allocateBitMapRun fuel s size num
          if r.1 = 0 then (0, r.2)
          else
            let s2 := vectorPushU32 fuel r.2 hdr (toOffset r.2 r.1 0) false
            bitMapRunLoop fuel s2 hdr n size num clear

termination_by structural fuel => fuel

/-- PayloadBuffer::AllocateBitMapRun: one run header plus num chunks of
size plus their 4-byte length prefixes, from the general allocator with
the small-block path disabled. -/
def allocateBitMapRun : Nat → PB → Nat → Nat → Nat × PB
  | 0, s, _, _ => (0, s)
  | fuel + 1, s, size, num =>
      let r := allocate fuel s (8 + (size + 4) * num) 4 false false
      if r.1 = 0 then (0, r.2)
      else
        let m := writeByte r.2.mem (r.1 + 4) size
        let m2 := writeByte m (r.1 + 5) num
        let m3 := write32 m2 r.1 0
        let m4 := writeByte m3 (r.1 + 6) num
        (r.1, { r.2 with mem := m4 })

termination_by structural fuel => fuel

/-- PayloadBuffer::AllocateBitMapRunVector: a VectorHeader with space
reserved for eight run offsets, all through the general allocator. -/
def allocateBitMapRunVector : Nat → PB → Nat × PB
  | 0, s => (0, s)
  | fuel + 1, s =>
      let r := allocate fuel s 8 4 true false
      if r.1 = 0 then (0, r.2)
      else
        let hdrOffset := toOffset r.2 r.1 0
        let s2 := vectorReserveU32 fuel r.2 r.1 8 false
        (hdrOffset, s2)

termination_by structural fuel => fuel

/-- PayloadBuffer::VectorReserve with a 4-byte element type. -/
def vectorReserveU32 : Nat → PB → Nat → Nat → Bool → PB
  | 0, s, _, _, _ => s
  | fuel + 1, s, hdrOff, n, enableSmall =>
      if read32 s.mem (hdrOff + 4) = 0 then
        let r := allocate fuel s (n * 4) 8 false enableSmall
        { r.2 with mem := write32 r.2.mem (hdrOff + 4) (toOffset r.2 r.1 0) }
      else
        let block := toAddress s (read32 s.mem (hdrOff + 4)) 0
        let currentSize := read32 s.mem (block - 4)
        if currentSize < n * 4 then
          let r := realloc fuel s block (n * 4) 8 false enableSmall
          { r.2 with mem := write32 r.2.mem (hdrOff + 4) (toOffset r.2 r.1 0) }
        else s

termination_by structural fuel => fuel

/-- PayloadBuffer::VectorPush with a 4-byte element type.  The capacity
comparison reads the raw length word preceding the data block, and the
element store and counter increment are unconditional, exactly as in the
header. -/
def vectorPushU32 : Nat → PB → Nat → Nat → Bool → PB
  | 0, s, _, _, _ => s
  | fuel + 1, s, hdrOff, v, enableSmall =>
      let totalSize := (read32 s.mem hdrOff * 4) % 4294967296
      let s2 :=
        if read32 s.mem (hdrOff + 4) = 0 then
          let r := allocate fuel s 8 8 true enableSmall
          { r.2 with mem := write32 r.2.mem (hdrOff + 4) (toOffset r.2 r.1 0) }
        else
          let block := toAddress s (read32 s.mem (hdrOff + 4)) 0
          let currentSize := read32 s.mem (block - 4)
          if currentSize = totalSize then
            let r := realloc fuel s block ((2 * read32 s.mem hdrOff * 4) % 4294967296) 8 true enableSmall
            { r.2 with mem := write32 r.2.mem (hdrOff + 4) (toOffset r.2 r.1 0) }
          else s
      let valuep := toAddress s2 (read32 s2.mem (hdrOff + 4)) 0 + 4 * read32 s2.mem hdrOff
      let m := write32 s2.mem valuep v
      let m2 := write32 m hdrOff (read32 m hdrOff + 1)
      { s2 with mem := m2 }

termination_by structural fuel => fuel

/-- PayloadBuffer::Free: decode the length word; small blocks go to the
bitmap tier, free-list blocks are inserted in address order.  When the
free list is empty the length stored for the new sole free block is the
payload length plus sizeof(size_t), that is plus eight. -/
def freeMem : Nat → PB → Nat → PB
  | 0, s, _ => s
  | fuel + 1, s, p =>
      if p = 0 then s
      else
        let allocLength := read32 s.mem (p - 4)
        match smallBlockIndexFromEncodedSize allocLength with
        | some idx =>
            freeSmallBlock s idx (decodeSmallRunIndex allocLength) (decodeSmallBitNum allocLength)
        | none =>
            let ah := p - 4
            let fb := toAddress s s.free_list 0
            if fb = 0 then
              let m := write32 s.mem ah (allocLength + 8)
              let m2 := write32 m (ah + 4) 0
              let s2 := { s with mem := m2 }
              { s2 with free_list := toOffset s2 ah 0 }
            else freeLoop fuel s p allocLength ah fb none

/-- The insertion walk of Free. -/
def freeLoop : Nat → PB → Nat → Nat → Nat → Nat → Option Nat → PB
  | 0, s, _, _, _, _, _ => s
  | fuel + 1, s, p, allocLength, ah, fb, prev =>
      if fb = 0 then
        match prev with
        | some q =>
            let r := mergeWithBelowIfPossible s ah q
            if r.1 then r.2
            else insertNewFreeBlockAtEnd r.2 ah prev (read32 r.2.mem ah + 4)
        | none => insertNewFreeBlockAtEnd s ah prev (read32 s.mem ah + 4)
      else if fb > ah then
        let s2 := mergeWithAboveIfPossible s p ah fb prev allocLength
        match prev with
        | some q => (mergeWithBelowIfPossible s2 ah q).2
        | none => s2
      else
        freeLoop fuel s p allocLength ah (toAddress s (read32 s.mem (fb + 4)) 0) (some fb)

termination_by structural fuel => fuel

/-- PayloadBuffer::Realloc. -/
def realloc : Nat → PB → Nat → Nat → Nat → Bool → Bool → Nat × PB
  | 0, s, _, _, _, _, _ => (0, s)
  | fuel + 1, s, p, n, alignment, clear, enableSmall =>
      if p = 0 then allocate fuel s n alignment clear true
      else
        let origLength := read32 s.mem (p - 4)
        match (if enableSmall then smallBlockIndexFromEncodedSize origLength else none) with
        | some idx =>
            let decoded := decodeSmallSize origLength
            if smallBlockIndex n = some idx then
              let encoded := encodeSmall (decodeSmallRunIndex origLength) (decodeSmallBitNum origLength) n
              let s2 := { s with mem := write32 s.mem (p - 4) encoded }
              let s3 :=
                if clear ∧ n > decoded then { s2 with mem := memZero s2.mem (p + decoded) (n - decoded) }
                else s2
              (p, s3)
            else
              let r := allocate fuel s n alignment false enableSmall
              if r.1 = 0 then (0, r.2)
              else
                let m := memCopy r.2.mem r.1 p decoded
                let m2 := if clear ∧ n > decoded then memZero m (r.1 + decoded) (n - decoded) else m
                let s2 := freeMem fuel { r.2 with mem := m2 } p
                (r.1, s2)
        | none =>
            let n2 := alignSize n 8
            if n2 = origLength then (p, s)
            else if n2 < origLength then
              (p, shrinkBlock fuel s (p - 4) origLength n2 (p - 4))
            else
              reallocGrow fuel s p n2 origLength alignment clear enableSmall
                (toAddress s s.free_list 0) none none

termination_by structural fuel => fuel

/-- PayloadBuffer::ShrinkBlock. -/
def shrinkBlock : Nat → PB → Nat → Nat → Nat → Nat → PB
  | 0, s, _, _, _, _ => s
  | fuel + 1, s, allocBlock, origLength, newLength, lenPtr =>
      let rem := origLength - newLength
      if rem ≥ 8 then
        let m := write32 s.mem lenPtr newLength
        let newp := allocBlock + 4 + newLength
        let m2 := write32 m newp (rem - 4)
        freeMem fuel { s with mem := m2 } (newp + 4)
      else s

/-- The growth walk of Realloc: look for an adjacent free block above or
below; a failed below-check breaks out to the allocate-copy-free path. -/
def reallocGrow : Nat → PB → Nat → Nat → Nat → Nat → Bool → Bool → Nat → Option Nat → Option Nat → Nat × PB
  | 0, s, _, _, _, _, _, _, _, _, _ => (0, s)
  | fuel + 1, s, p, n2, origLength, alignment, clear, enableSmall, fb, prev, prevPrev =>
      if fb = 0 then reallocCopy fuel s p n2 origLength alignment clear enableSmall
      else
        let ab := p - 4
        if fb > ab then
          let diff := n2 - origLength
          if p + origLength = fb ∧ read32 s.mem fb > diff ∧ read32 s.mem fb - diff > 8 then
            (p, expandIntoFreeBlockAbove s fb n2 diff (read32 s.mem fb - diff) (p - 4) prev clear)
          else
            match prev with
            | some q =>
                if q + read32 s.mem q = ab ∧ read32 s.mem q ≥ diff then
                  mergeWithFreeBlockBelow s p prevPrev q n2 origLength clear
                else reallocCopy fuel s p n2 origLength alignment clear enableSmall
            | none =>
                reallocGrow fuel s p n2 origLength alignment clear enableSmall
                  (toAddress s (read32 s.mem (fb + 4)) 0) (some fb) prev
        else
          reallocGrow fuel s p n2 origLength alignment clear enableSmall
            (toAddress s (read32 s.mem (fb + 4)) 0) (some fb) prev

termination_by structural fuel => fuel

/-- The tail of Realloc: allocate a new block, copy the payload, free the
old block. -/
def reallocCopy : Nat → PB → Nat → Nat → Nat → Nat → Bool → Bool → Nat × PB
  | 0, s, _, _, _, _, _, _ => (0, s)
  | fuel + 1, s, p, n2, origLength, alignment, clear, enableSmall =>
      let r := allocate fuel s n2 alignment false enableSmall
      if r.1 = 0 then (0, r.2)
      else
        let m := memCopy r.2.mem r.1 p origLength
        let m2 := if clear then memZero m (r.1 + origLength) (n2 - origLength) else m
        let s2 := freeMem fuel { r.2 with mem := m2 } p
        (r.1, s2)

termination_by structural fuel => fuel

/-- PayloadBuffer::SetString: reallocate or allocate the string cell,
store the length prefix, copy the bytes, rewrite the header slot. -/
def setString : Nat → PB → List Nat → Nat → Nat → Nat × PB
  | 0, s, _, _, _ => (0, s)
  | fuel + 1, s, strBytes, len, headerOffset =>
      let hdr := toAddress s headerOffset 0
      let strPtr := read32 s.mem hdr
      let oldStr := toAddress s strPtr 0
      let r :=
        if oldStr ≠ 0 then realloc fuel s oldStr (len + 4) 4 false true
        else allocate fuel s (len + 4) 4 false true
      let m := write32 r.2.mem r.1 len
      let m2 := memWriteList m (r.1 + 4) strBytes
      let s2 := { r.2 with mem := m2 }
      let hdr2 := toAddress s2 headerOffset 0
      (r.1, { s2 with mem := write32 s2.mem hdr2 (toOffset s2 r.1 0) })

end

/-- One step of a workload: a general allocation with its arguments, or a
free of a pointer returned earlier. -/
inductive AllocOp where
  | alloc (n alignment : Nat) (clear small : Bool)
  | free (p : Nat)

/-- Run a list of operations and collect the allocation results in
order. -/
def runOps (fuel : Nat) : PB → List AllocOp → PB × List Nat
  | s, [] => (s, [])
  | s, AllocOp.alloc n a c sm :: rest =>
      let r := allocate fuel s n a c sm
      let rec2 := runOps fuel r.2 rest
      (rec2.1, r.1 :: rec2.2)
  | s, AllocOp.free p :: rest => runOps fuel (freeMem fuel s p) rest

/-- The traversal of the free list performed by DumpFreeList and
CheckFreeList: follow ToAddress-resolved next pointers until null,
collecting (offset, stored length) pairs. -/
def walkChainAux (s : PB) : Nat → Nat → List (Nat × Nat)
  | 0, _ => []
  | fuel + 1, off =>
      if off = 0 then []
      else (off, read32 s.mem off) :: walkChainAux s fuel (toAddress s (read32 s.mem (off + 4)) 0)

/-- Walk the free list from the free_list header field. -/
def walkChain (fuel : Nat) (s : PB) : List (Nat × Nat) :=
  walkChainAux s fuel (toAddress s s.free_list 0)

/-- Capacity decoding as the specification describes it: a length word
with the top bit set carries the small-block encoding whose low byte is
the logical size, otherwise the word is the size itself.  This definition
follows the words of the spec (and matches the DecodeSize helper of the
newer header variant); it exists to be compared against vectorPushU32 as
the cited header implements it. -/
def decodeLengthWordSpec (w : Nat) : Nat :=
  if w &&& 2147483648 = 0 then w else w &&& 255

/-- VectorPush as the specification words it: identical to vectorPushU32
except that the current capacity compared against num_elements times the
element size is obtained by decoding the length word in either of its two
forms. -/
def vectorPushU32Spec : Nat → PB → Nat → Nat → Bool → PB
  | 0, s, _, _, _ => s
  | fuel + 1, s, hdrOff, v, enableSmall =>
      let totalSize := (read32 s.mem hdrOff * 4) % 4294967296
      let s2 :=
        if read32 s.mem (hdrOff + 4) = 0 then
          let r := allocate fuel s 8 8 true enableSmall
          { r.2 with mem := write32 r.2.mem (hdrOff + 4) (toOffset r.2 r.1 0) }
        else
          let block := toAddress s (read32 s.mem (hdrOff + 4)) 0
          let currentSize := decodeLengthWordSpec (read32 s.mem (block - 4))
          if currentSize = totalSize then
            let r := realloc fuel s block ((2 * read32 s.mem hdrOff * 4) % 4294967296) 8 true enableSmall
            { r.2 with mem := write32 r.2.mem (hdrOff + 4) (toOffset r.2 r.1 0) }
          else s
      let valuep := toAddress s2 (read32 s2.mem (hdrOff + 4)) 0 + 4 * read32 s2.mem hdrOff
      let m := write32 s2.mem valuep v
      let m2 := write32 m hdrOff (read32 m hdrOff + 1)
      { s2 with mem := m2 }

/-- Push a whole list of 32-bit values onto one vector. -/
def pushAllU32 (fuel : Nat) : PB → Nat → List Nat → PB
  | s, _, [] => s
  | s, hdrOff, v :: rest => pushAllU32 fuel (vectorPushU32 fuel s hdrOff v true) hdrOff rest

/-! Concrete states shared by the claim theorems below.  s1C is a fresh
4096-byte fixed region in which one 8-byte block has been allocated with
the small-block path disabled; that block, at offset 44, serves as a
VectorHeader or as a StringHeader slot, and is zeroed by the allocation. -/

def s1C : PB := (allocate 99 (mkFixed 4096) 8 8 true false).2

/-- The state after pushing 1, 2, 3, 4 onto the empty vector whose header
sits at offset 44 of s1C.  The first push allocates the 8-byte data block
from the small-block tier: it lands at offset 116, inside a size-16 chunk
whose length word at offset 112 holds the small-block encoding. -/
def push4C : PB := pushAllU32 99 s1C 44 [1, 2, 3, 4]

/-- C1, counterexample.  The claim asserts that the capacity compared by
VectorPush against num_elements times the element size is obtained by
decoding the length word preceding the data block in either its free-list
or its small-block form.  In the cited header the raw word is compared
undecoded: after four pushes the data block is small-block hosted, its
length word decodes to capacity 16 = 4 times 4, so a decoding push (the
spec-worded variant) doubles the block and moves the data away from
offset 116, while the implemented push compares the raw encoded word
2147483664, misses the equality, leaves the block in place and stores a
fifth element beyond the decoded capacity. -/
theorem c1_vector_capacity_not_decoded :
    read32 push4C.mem 44 = 4 ∧
    read32 push4C.mem 48 = 116 ∧
    read32 push4C.mem 112 = 2147483664 ∧
    decodeLengthWordSpec 2147483664 = 16 ∧
    (2147483664 : Nat) ≠ 4 * 4 ∧
    read32 (vectorPushU32 99 push4C 44 5 true).mem 48 = 116 ∧
    read32 (vectorPushU32Spec 99 push4C 44 5 true).mem 48 = 816 ∧
    read32 (vectorPushU32 99 push4C 44 5 true).mem 44 = 5 := by decide

/-- Strict ascent of a list of offsets, as the free-list monotonicity
invariant of the spec requires of a walk. -/
def strictlyAscending : List Nat → Bool
  | [] => true
  | [_] => true
  | a :: b :: rest => a < b && strictlyAscending (b :: rest)

/-- The eight-operation workload refuting C2: all frees target pointers
returned by earlier allocations and still live at the time of the free. -/
def c2ops : List AllocOp :=
  [AllocOp.alloc 24 8 true false, AllocOp.free 44, AllocOp.alloc 20 4 true false,
   AllocOp.alloc 4 8 true false, AllocOp.free 44, AllocOp.free 68,
   AllocOp.alloc 16 8 true false, AllocOp.alloc 24 4 true false]

/-- C2, counterexample.  In a 72-byte fixed region the workload c2ops
(whose allocations return 44, 44, 68, 44, 68, so every free is of a live
pointer) drives the free list into the chain (60, 8), (24, 0): walking
free_list visits offset 60 and then offset 24, which is not strictly
ascending (and offset 24 lies inside the buffer header).  The root cause
is that Free into an empty free list records the block length as payload
plus sizeof(size_t) = 8 instead of plus 4, creating overlapping free
blocks that a later split turns into a corrupted chain. -/
theorem c2_free_list_not_ascending :
    (runOps 50 (mkFixed 72) c2ops).2 = [44, 44, 68, 44, 68] ∧
    walkChain 20 (runOps 50 (mkFixed 72) c2ops).1 = [(60, 8), (24, 0)] ∧
    strictlyAscending (List.map Prod.fst (walkChain 20 (runOps 50 (mkFixed 72) c2ops).1)) =
      false := by decide

/-- C4: for every live pointer p obtained from an allocation in a region
with a recognised magic, ToAddress applied to ToOffset of p returns p.
Addresses are modelled as base plus offset with an arbitrary base. -/
theorem c4_offset_address_round_trip (base : Nat) (s : PB) (p : Nat)
    (hmagic : isValidMagic s = true) (h1 : base < p) (h2 : p < base + s.full_size) :
    toAddressAbs base s (toOffsetAbs base s p 0) 0 = p := by
  unfold toAddressAbs toOffsetAbs
  simp only [hmagic, not_true, if_false, if_pos rfl]
  split_ifs <;> omega

/-- Witness for C4: base 1000, a fresh 56-byte fixed region, and the
pointer 1044 (offset 44, the payload of the first allocation). -/
theorem c4_offset_address_round_trip_witness :
    isValidMagic (mkFixed 56) = true ∧ 1000 < 1044 ∧
    1044 < 1000 + (mkFixed 56).full_size ∧
    toAddressAbs 1000 (mkFixed 56) (toOffsetAbs 1000 (mkFixed 56) 1044 0) 0 = 1044 :=
  ⟨by decide, by decide, by decide,
    c4_offset_address_round_trip 1000 (mkFixed 56) 1044 (by decide) (by decide) (by decide)⟩

/-- C5, failing run.  In a 56-byte fixed region the free list is the
single block (40, 16).  Allocate(8) takes the whole block (the remainder
4 is below sizeof(FreeBlockHeader)) and returns offset 44; Free(44) then
rebuilds the free list as the single block (40, 20), because the
empty-free-list branch of Free adds sizeof(size_t) = 8 to the stored
payload length of 12 instead of 4.  The allocator state after
allocate-then-free differs from the state before even modulo hwm. -/
theorem c5_allocate_free_not_inverse :
    walkChain 10 (mkFixed 56) = [(40, 16)] ∧
    (allocate 50 (mkFixed 56) 8 8 true false).1 = 44 ∧
    walkChain 10 (freeMem 50 (allocate 50 (mkFixed 56) 8 8 true false).2 44) = [(40, 20)] := by
  decide

/-- C6, counterexample.  A moveable 256-byte region whose free list
cannot satisfy Allocate(996) (required full length 1004 after alignment)
invokes the resizer with new_size 1024 = 256 doubled twice, not with
max(2 x 256, 256 + 1004) = 1260 as the claim states; the retry then
resizes again to 2048. -/
theorem c6_resize_growth_formula_counterexample :
    alignSize 996 8 + 4 = 1004 ∧
    (allocate 50 (mkMovable 256) 996 8 true true).2.resizerCalls = [(256, 1024), (1024, 2048)] ∧
    (1024 : Nat) ≠ max (2 * 256) (256 + 1004) := by decide

/-- A 72-byte fixed region whose free list has been emptied by two
allocations with the small-block path disabled; the first allocation, at
offset 44, is a zeroed 8-byte block usable as a VectorHeader. -/
def c8VecState : PB := (allocate 50 (allocate 50 (mkFixed 72) 8 8 true false).2 16 8 true false).2

/-- The C8 SetString scenario: in a fresh 4096-byte fixed region a string
header slot at offset 44 is filled by a successful SetString (the cell
lands at offset 116), then the free list is exhausted by an allocation of
everything that remains. -/
def c8StrState : PB :=
  (allocate 200 (setString 200 (allocate 200 (mkFixed 4096) 8 8 true false).2
    [102, 111, 111, 98, 97, 114, 33, 33] 8 44).2 3336 8 false false).2

/-- C8, failing runs.  VectorPush on the exhausted region c8VecState
(empty free list, vector header zero at offset 44) fails its allocation
yet still increments num_elements from 0 to 1 and dereferences the null
data pointer, so the header does not stay unchanged.  SetString on
c8StrState, whose header slot at offset 44 holds the cell offset 116,
fails its reallocation (it returns the null pointer 0) yet overwrites the
header slot with 0 instead of leaving the prior value 116 in place. -/
theorem c8_error_paths_not_atomic :
    walkChain 10 c8VecState = [] ∧
    read32 c8VecState.mem 44 = 0 ∧ read32 c8VecState.mem 48 = 0 ∧
    read32 (vectorPushU32 50 c8VecState 44 7 true).mem 44 = 1 ∧
    walkChain 10 c8StrState = [] ∧
    read32 c8StrState.mem 44 = 116 ∧
    (setString 200 c8StrState (List.replicate 200 65) 200 44).1 = 0 ∧
    read32 (setString 200 c8StrState (List.replicate 200 65) 200 44).2.mem 44 = 0 := by decide

/-- C9, failing run.  SetPresenceBit and ClearPresenceBit address bit k
at word k / 32 with mask 1 shifted by k mod 32, but IsPresent reads word
k / 64 and shifts by k mod 64 (undefined behaviour for 32-bit operands
when k mod 64 is 32 or more, modelled as mask truncation).  At k = 32 the
set-then-test round trip claimed by C9 fails: the mutator sets bit 0 of
the word at offset 52, IsPresent inspects the word at offset 48 with a
truncated mask and reports false; at k = 3 (below 32) the trio agrees. -/
theorem c9_presence_bit_word_mismatch :
    read32 (setPresenceBit (mkFixed 100) 32 48).mem 52 = 1 ∧
    isPresent (setPresenceBit (mkFixed 100) 32 48) 32 48 = false ∧
    isPresent (setPresenceBit (mkFixed 100) 3 48) 3 48 = true ∧
    isPresent (clearPresenceBit (setPresenceBit (mkFixed 100) 3 48) 3 48) 3 48 = false := by
  decide

theorem bitMapRunLoop_n_irrelevant (fuel : Nat) :
    ∀ (s : PB) (hdr n m size num : Nat) (clear : Bool),
      bitMapRunLoop fuel s hdr n size num clear = bitMapRunLoop fuel s hdr m size num clear := by
  induction fuel with
  | zero => intro s hdr n m size num clear; rfl
  | succ f ih =>
      intro s hdr n m size num clear
      simp only [bitMapRunLoop]
      cases hscan : bitMapRunScan s hdr size clear (read32 s.mem hdr) with
      | some r => rfl
      | none =>
          by_cases hz : (allocateBitMapRun f s size num).1 = 0
          · simp only [hz, if_pos rfl, if_true]
          · simp only [hz, if_false, if_neg hz]
            exact ih _ _ _ _ _ _ _

theorem bitMapRunAllocate_n_irrelevant (fuel : Nat) (s : PB) (index n m size num : Nat)
    (clear : Bool) :
    bitMapRunAllocate fuel s index n size num clear =
      bitMapRunAllocate fuel s index m size num clear := by
  cases fuel with
  | zero => rfl
  | succ f =>
      simp only [bitMapRunAllocate]
      by_cases hb : getBitmap s index = 0
      · simp only [hb, if_pos rfl, if_true]
        by_cases hz : (allocateBitMapRunVector f s).1 = 0
        · simp only [hz, if_pos rfl, if_true]
        · simp only [hz, if_false, if_neg hz]
          exact bitMapRunLoop_n_irrelevant f _ _ _ _ _ _ _
      · simp only [hb, if_false, if_neg hb]
        exact bitMapRunLoop_n_irrelevant f _ _ _ _ _ _ _

/-- Two small requests in the same size class take exactly the same path
through the allocator: the requested size is dispatched on its class and
is not stored anywhere by BitMapRun allocation (the encoded word stores
the class slot size). -/
theorem allocate_small_class_eq (fuel : Nat) (s : PB) (n rep i : Nat)
    (hn : n ≠ 0) (hrep : rep ≠ 0) (hi : smallBlockIndex n = some i)
    (hri : smallBlockIndex rep = some i) :
    allocate (fuel + 1) s n 8 true true = allocate (fuel + 1) s rep 8 true true := by
  simp only [allocate, if_neg hn, if_neg hrep, if_true, hi, hri]
  cases fuel with
  | zero => rfl
  | succ f =>
      simp only [allocateSmallBlock]
      exact bitMapRunAllocate_n_irrelevant f _ _ _ _ _ _ _

/-- C7: in a fresh 4096-byte region, allocating a small block of any size
n between 1 and 128, freeing it, and allocating the same size again
returns the same address (the bitmap tier reuses the cleared bit). -/
theorem c7_small_block_address_reuse (n : Nat) (h1 : 1 ≤ n) (h2 : n ≤ 128) :
    (allocate 200 (mkFixed 4096) n 8 true true).1 ≠ 0 ∧
    (allocate 200 (freeMem 200 (allocate 200 (mkFixed 4096) n 8 true true).2
        (allocate 200 (mkFixed 4096) n 8 true true).1) n 8 true true).1 =
      (allocate 200 (mkFixed 4096) n 8 true true).1 := by
  have hn : n ≠ 0 := by omega
  have hcase : smallBlockIndex n = some 0 ∨ smallBlockIndex n = some 1 ∨
      smallBlockIndex n = some 2 ∨ smallBlockIndex n = some 3 := by
    unfold smallBlockIndex
    split_ifs <;> simp_all
  rcases hcase with hi | hi | hi | hi
  · rw [show (200 : Nat) = 199 + 1 from rfl,
      allocate_small_class_eq 199 (mkFixed 4096) n 16 0 hn (by decide) hi (by decide),
      allocate_small_class_eq 199 _ n 16 0 hn (by decide) hi (by decide)]
    decide
  · rw [show (200 : Nat) = 199 + 1 from rfl,
      allocate_small_class_eq 199 (mkFixed 4096) n 32 1 hn (by decide) hi (by decide),
      allocate_small_class_eq 199 _ n 32 1 hn (by decide) hi (by decide)]
    decide
  · rw [show (200 : Nat) = 199 + 1 from rfl,
      allocate_small_class_eq 199 (mkFixed 4096) n 64 2 hn (by decide) hi (by decide),
      allocate_small_class_eq 199 _ n 64 2 hn (by decide) hi (by decide)]
    decide
  · rw [show (200 : Nat) = 199 + 1 from rfl,
      allocate_small_class_eq 199 (mkFixed 4096) n 128 3 hn (by decide) hi (by decide),
      allocate_small_class_eq 199 _ n 128 3 hn (by decide) hi (by decide)]
    decide

/-- Witness for C7 at n = 10 (the 10-byte block of the spec scenario). -/
theorem c7_small_block_address_reuse_witness :
    1 ≤ 10 ∧ 10 ≤ 128 ∧
    ((allocate 200 (mkFixed 4096) 10 8 true true).1 ≠ 0 ∧
      (allocate 200 (freeMem 200 (allocate 200 (mkFixed 4096) 10 8 true true).2
          (allocate 200 (mkFixed 4096) 10 8 true true).1) 10 8 true true).1 =
        (allocate 200 (mkFixed 4096) 10 8 true true).1) :=
  ⟨by decide, by decide, c7_small_block_address_reuse 10 (by decide) (by decide)⟩

theorem readByte_write32_out (m : Mem) (a v b : Nat) (h : b < a ∨ a + 4 ≤ b) :
    readByte (write32 m a v) b = readByte m b := by
  simp only [write32]
  rw [readByte_writeByte_ne _ _ _ _ (by omega), readByte_writeByte_ne _ _ _ _ (by omega),
    readByte_writeByte_ne _ _ _ _ (by omega), readByte_writeByte_ne _ _ _ _ (by omega)]

theorem shiftRight_lor (a b k : Nat) : (a ||| b) >>> k = (a >>> k) ||| (b >>> k) := by
  apply Nat.eq_of_testBit_eq
  intro i
  simp [Nat.testBit_shiftRight, Nat.testBit_lor]

theorem land_mod (x k : Nat) : x &&& (2 ^ k - 1) = x % 2 ^ k :=
  Nat.and_pow_two_sub_one_eq_mod x k

theorem encodeSmall_arg_lt (ri bn n2 : Nat) (hri : ri < 262144) (hbn : bn < 32) :
    (2147483648 ||| (ri <<< 8) ||| (bn <<< 26) ||| (n2 &&& 255)) < 4294967296 := by
  have h255 : n2 &&& 255 = n2 % 256 := by
    have := land_mod n2 8; norm_num at this; exact this
  apply Nat.or_lt_two_pow (n := 32)
  apply Nat.or_lt_two_pow (n := 32)
  apply Nat.or_lt_two_pow (n := 32)
  · norm_num
  · rw [Nat.shiftLeft_eq]; omega
  · rw [Nat.shiftLeft_eq]; omega
  · rw [h255]; norm_num; omega

theorem decode_encodeSmall (ri bn n2 : Nat) (hri : ri < 262144) (hbn : bn < 32)
    (hn2 : n2 < 256) :
    decodeSmallSize (encodeSmall ri bn n2) = n2 ∧
    decodeSmallBitNum (encodeSmall ri bn n2) = bn ∧
    decodeSmallRunIndex (encodeSmall ri bn n2) = ri := by
  have hlt := encodeSmall_arg_lt ri bn n2 hri hbn
  have henc : encodeSmall ri bn n2 =
      2147483648 ||| (ri <<< 8) ||| (bn <<< 26) ||| (n2 &&& 255) := by
    unfold encodeSmall; exact Nat.mod_eq_of_lt hlt
  have h255 : n2 &&& 255 = n2 := by
    have := land_mod n2 8; norm_num at this; omega
  have hsl8 : ri <<< 8 = ri * 256 := by rw [Nat.shiftLeft_eq]
  have hsl26 : bn <<< 26 = bn * 67108864 := by rw [Nat.shiftLeft_eq]
  refine ⟨?_, ?_, ?_⟩
  · unfold decodeSmallSize
    rw [henc, Nat.and_distrib_right, Nat.and_distrib_right, Nat.and_distrib_right]
    have e1 : (2147483648 : Nat) &&& 255 = 0 := by decide
    have e2 : (ri <<< 8) &&& 255 = 0 := by
      have := land_mod (ri <<< 8) 8; norm_num at this; rw [this, hsl8]; omega
    have e3 : (bn <<< 26) &&& 255 = 0 := by
      have := land_mod (bn <<< 26) 8; norm_num at this; rw [this, hsl26]; omega
    have e4 : (n2 &&& 255) &&& 255 = n2 := by rw [h255, h255]
    rw [e1, e2, e3, e4]
    simp
  · unfold decodeSmallBitNum
    rw [henc, shiftRight_lor, shiftRight_lor, shiftRight_lor,
      Nat.and_distrib_right, Nat.and_distrib_right, Nat.and_distrib_right]
    have d31 : (x : Nat) → x &&& 31 = x % 32 := by
      intro x; have := land_mod x 5; norm_num at this; exact this
    have sr : (x : Nat) → x >>> 26 = x / 67108864 := by
      intro x; rw [Nat.shiftRight_eq_div_pow]
    have e1 : ((2147483648 : Nat) >>> 26) &&& 31 = 0 := by decide
    have e2 : ((ri <<< 8) >>> 26) &&& 31 = 0 := by
      rw [sr, d31, hsl8]; omega
    have e3 : ((bn <<< 26) >>> 26) &&& 31 = bn := by
      rw [sr, d31, hsl26]
      omega
    have e4 : ((n2 &&& 255) >>> 26) &&& 31 = 0 := by
      rw [h255, sr, d31]; omega
    rw [e1, e2, e3, e4]
    simp
  · unfold decodeSmallRunIndex
    rw [henc, shiftRight_lor, shiftRight_lor, shiftRight_lor,
      Nat.and_distrib_right, Nat.and_distrib_right, Nat.and_distrib_right]
    have d18 : (x : Nat) → x &&& 262143 = x % 262144 := by
      intro x; have := land_mod x 18; norm_num at this; exact this
    have sr : (x : Nat) → x >>> 8 = x / 256 := by
      intro x; rw [Nat.shiftRight_eq_div_pow]
    have e1 : ((2147483648 : Nat) >>> 8) &&& 262143 = 0 := by decide
    have e2 : ((ri <<< 8) >>> 8) &&& 262143 = ri := by
      rw [sr, d18, hsl8]; omega
    have e3 : ((bn <<< 26) >>> 8) &&& 262143 = 0 := by
      rw [sr, d18, hsl26]
      omega
    have e4 : ((n2 &&& 255) >>> 8) &&& 262143 = 0 := by
      rw [h255, sr, d18]; omega
    rw [e1, e2, e3, e4]
    simp

theorem smallBlockIndex_le_128 (n i : Nat) (h : smallBlockIndex n = some i) : n ≤ 128 := by
  unfold smallBlockIndex at h
  split_ifs at h <;> omega

theorem decodeSmallBitNum_lt (w : Nat) : decodeSmallBitNum w < 32 := by
  unfold decodeSmallBitNum
  have := land_mod (w >>> 26) 5
  norm_num at this
  omega

theorem decodeSmallRunIndex_lt (w : Nat) : decodeSmallRunIndex w < 262144 := by
  unfold decodeSmallRunIndex
  have := land_mod (w >>> 8) 18
  norm_num at this
  omega

theorem encodeSmall_lt (ri bn n2 : Nat) : encodeSmall ri bn n2 < 4294967296 := by
  unfold encodeSmall
  exact Nat.mod_lt _ (by norm_num)

/-- The state produced by the same-class small-block path of Realloc:
the length word before p is rewritten with the re-encoded word carrying
size n, and the newly exposed tail is zeroed when requested. -/
def c10Post (s : PB) (p n : Nat) (clear : Bool) : PB :=
  let w := read32 s.mem (p - 4)
  let enc := encodeSmall (decodeSmallRunIndex w) (decodeSmallBitNum w) n
  let s2 : PB := { s with mem := write32 s.mem (p - 4) enc }
  if clear ∧ n > decodeSmallSize w then
    { s2 with mem := memZero s2.mem (p + decodeSmallSize w) (n - decodeSmallSize w) }
  else s2

/-- C10: reallocating a small block to a size n in the same size class
returns the original address; the only state change is that the encoded
length word before the block is rewritten with n in its size field, the
bit number and run index fields unchanged, plus zeroing of the newly
exposed tail bytes when clear is requested and n exceeds the previously
recorded size.  All header fields and every other byte of the region are
untouched. -/
theorem c10_realloc_small_same_class (fuel : Nat) (s : PB) (p n alignment : Nat)
    (clear : Bool) (i : Nat) (hp : 4 ≤ p)
    (hidx : smallBlockIndexFromEncodedSize (read32 s.mem (p - 4)) = some i)
    (hsame : smallBlockIndex n = some i) :
    (realloc (fuel + 1) s p n alignment clear true).1 = p ∧
    (realloc (fuel + 1) s p n alignment clear true).2.magic = s.magic ∧
    (realloc (fuel + 1) s p n alignment clear true).2.full_size = s.full_size ∧
    (realloc (fuel + 1) s p n alignment clear true).2.free_list = s.free_list ∧
    (realloc (fuel + 1) s p n alignment clear true).2.hwm = s.hwm ∧
    read32 (realloc (fuel + 1) s p n alignment clear true).2.mem (p - 4) =
      encodeSmall (decodeSmallRunIndex (read32 s.mem (p - 4)))
        (decodeSmallBitNum (read32 s.mem (p - 4))) n ∧
    decodeSmallBitNum (read32 (realloc (fuel + 1) s p n alignment clear true).2.mem (p - 4)) =
      decodeSmallBitNum (read32 s.mem (p - 4)) ∧
    decodeSmallRunIndex (read32 (realloc (fuel + 1) s p n alignment clear true).2.mem (p - 4)) =
      decodeSmallRunIndex (read32 s.mem (p - 4)) ∧
    decodeSmallSize (read32 (realloc (fuel + 1) s p n alignment clear true).2.mem (p - 4)) = n ∧
    (∀ a, a < p - 4 →
      (realloc (fuel + 1) s p n alignment clear true).2.mem a = s.mem a) ∧
    (if clear = true ∧ decodeSmallSize (read32 s.mem (p - 4)) < n then
      (∀ a, p ≤ a → a < p + decodeSmallSize (read32 s.mem (p - 4)) →
        (realloc (fuel + 1) s p n alignment clear true).2.mem a = s.mem a) ∧
      (∀ a, p + decodeSmallSize (read32 s.mem (p - 4)) ≤ a → a < p + n →
        (realloc (fuel + 1) s p n alignment clear true).2.mem a = 0) ∧
      (∀ a, p + n ≤ a →
        (realloc (fuel + 1) s p n alignment clear true).2.mem a = s.mem a)
    else
      (∀ a, p ≤ a →
        (realloc (fuel + 1) s p n alignment clear true).2.mem a = s.mem a)) := by
  have hn128 : n ≤ 128 := smallBlockIndex_le_128 n i hsame
  have hp0 : ¬(p = 0) := by omega
  have hr : realloc (fuel + 1) s p n alignment clear true = (p, c10Post s p n clear) := by
    simp [realloc, c10Post, hp0, hidx, hsame]
  have hdec := decode_encodeSmall (decodeSmallRunIndex (read32 s.mem (p - 4)))
    (decodeSmallBitNum (read32 s.mem (p - 4))) n
    (decodeSmallRunIndex_lt _) (decodeSmallBitNum_lt _) (by omega)
  have hencmod : encodeSmall (decodeSmallRunIndex (read32 s.mem (p - 4)))
      (decodeSmallBitNum (read32 s.mem (p - 4))) n % 4294967296 =
      encodeSmall (decodeSmallRunIndex (read32 s.mem (p - 4)))
        (decodeSmallBitNum (read32 s.mem (p - 4))) n :=
    Nat.mod_eq_of_lt (encodeSmall_lt _ _ _)
  rw [hr]
  dsimp only
  by_cases hc : clear = true ∧ decodeSmallSize (read32 s.mem (p - 4)) < n
  · have hc2 : clear = true ∧ n > decodeSmallSize (read32 s.mem (p - 4)) := ⟨hc.1, hc.2⟩
    have hmem : (c10Post s p n clear).mem =
        memZero
          (write32 s.mem (p - 4)
            (encodeSmall (decodeSmallRunIndex (read32 s.mem (p - 4)))
              (decodeSmallBitNum (read32 s.mem (p - 4))) n))
          (p + decodeSmallSize (read32 s.mem (p - 4)))
          (n - decodeSmallSize (read32 s.mem (p - 4))) := by
      simp only [c10Post, if_pos hc2]
    have hmagic : (c10Post s p n clear).magic = s.magic := by
      simp only [c10Post, if_pos hc2]
    have hfs : (c10Post s p n clear).full_size = s.full_size := by
      simp only [c10Post, if_pos hc2]
    have hfl : (c10Post s p n clear).free_list = s.free_list := by
      simp only [c10Post, if_pos hc2]
    have hhwm : (c10Post s p n clear).hwm = s.hwm := by
      simp only [c10Post, if_pos hc2]
    have hword : read32 (c10Post s p n clear).mem (p - 4) =
        encodeSmall (decodeSmallRunIndex (read32 s.mem (p - 4)))
          (decodeSmallBitNum (read32 s.mem (p - 4))) n := by
      rw [hmem, read32_memZero_out _ _ _ _ (by omega), read32_write32_same, hencmod]
    refine ⟨rfl, hmagic, hfs, hfl, hhwm, hword, ?_, ?_, ?_, ?_, ?_⟩
    · rw [hword]; exact hdec.2.1
    · rw [hword]; exact hdec.2.2
    · rw [hword]; exact hdec.1
    · intro a ha
      rw [hmem]
      show readByte _ a = readByte s.mem a
      rw [readByte_memZero_out _ _ _ _ (by omega), readByte_write32_out _ _ _ _ (by omega)]
    · rw [if_pos hc]
      refine ⟨?_, ?_, ?_⟩
      · intro a ha1 ha2
        rw [hmem]
        show readByte _ a = readByte s.mem a
        rw [readByte_memZero_out _ _ _ _ (by omega), readByte_write32_out _ _ _ _ (by omega)]
      · intro a ha1 ha2
        rw [hmem]
        show readByte _ a = 0
        rw [readByte_memZero_in _ _ _ _ (by omega) (by omega)]
      · intro a ha
        rw [hmem]
        show readByte _ a = readByte s.mem a
        rw [readByte_memZero_out _ _ _ _ (by omega), readByte_write32_out _ _ _ _ (by omega)]
  · have hc2 : ¬(clear = true ∧ n > decodeSmallSize (read32 s.mem (p - 4))) := by
      intro hcc; exact hc ⟨hcc.1, hcc.2⟩
    have hmem : (c10Post s p n clear).mem =
        write32 s.mem (p - 4)
          (encodeSmall (decodeSmallRunIndex (read32 s.mem (p - 4)))
            (decodeSmallBitNum (read32 s.mem (p - 4))) n) := by
      simp only [c10Post, if_neg hc2]
    have hmagic : (c10Post s p n clear).magic = s.magic := by
      simp only [c10Post, if_neg hc2]
    have hfs : (c10Post s p n clear).full_size = s.full_size := by
      simp only [c10Post, if_neg hc2]
    have hfl : (c10Post s p n clear).free_list = s.free_list := by
      simp only [c10Post, if_neg hc2]
    have hhwm : (c10Post s p n clear).hwm = s.hwm := by
      simp only [c10Post, if_neg hc2]
    have hword : read32 (c10Post s p n clear).mem (p - 4) =
        encodeSmall (decodeSmallRunIndex (read32 s.mem (p - 4)))
          (decodeSmallBitNum (read32 s.mem (p - 4))) n := by
      rw [hmem, read32_write32_same, hencmod]
    refine ⟨rfl, hmagic, hfs, hfl, hhwm, hword, ?_, ?_, ?_, ?_, ?_⟩
    · rw [hword]; exact hdec.2.1
    · rw [hword]; exact hdec.2.2
    · rw [hword]; exact hdec.1
    · intro a ha
      rw [hmem]
      exact readByte_write32_out s.mem (p - 4)
        (encodeSmall (decodeSmallRunIndex (read32 s.mem (p - 4)))
          (decodeSmallBitNum (read32 s.mem (p - 4))) n) a (by omega)
    · rw [if_neg hc]
      intro a ha
      rw [hmem]
      exact readByte_write32_out s.mem (p - 4)
        (encodeSmall (decodeSmallRunIndex (read32 s.mem (p - 4)))
          (decodeSmallBitNum (read32 s.mem (p - 4))) n) a (by omega)

/-- Witness for C10: in the state push4C the block at offset 116 is a
small block of class 0 (its length word at 112 is the encoding with size
field 16); reallocating it to 10 bytes keeps the address and rewrites
only the length word. -/
theorem c10_realloc_small_same_class_witness :
    4 ≤ 116 ∧
    smallBlockIndexFromEncodedSize (read32 push4C.mem (116 - 4)) = some 0 ∧
    smallBlockIndex 10 = some 0 ∧
    ((realloc (10 + 1) push4C 116 10 8 true true).1 = 116 ∧
      read32 (realloc (10 + 1) push4C 116 10 8 true true).2.mem (116 - 4) =
        encodeSmall (decodeSmallRunIndex (read32 push4C.mem (116 - 4)))
          (decodeSmallBitNum (read32 push4C.mem (116 - 4))) 10) := by
  refine ⟨by decide, by decide, by decide, ?_⟩
  have h := c10_realloc_small_same_class 10 push4C 116 10 8 true 0 (by decide)
    (by decide) (by decide)
  exact ⟨h.1, h.2.2.2.2.2.1⟩

/-! C1, amended behaviour: although VectorPush never decodes the length
word (so the capacity check is inert for small-block-hosted data), the
push/get round trip still holds in the flat-memory model, because each
push stores the element at data + 4 * num_elements unconditionally and
the data block stays at offset 116 throughout. -/

/-- Invariant of the vector at header offset 44 of the region s1C after
the values vals have been pushed: the header holds the element count and
the data offset 116, the length word at 112 keeps its small-block top
bit (so the raw capacity comparison of VectorPush can never succeed),
and the elements pushed so far sit in order at offset 116. -/
def c1Inv (s : PB) (vals : List Nat) : Prop :=
  s.magic = kFixedBufferMagic ∧ s.full_size = 4096 ∧
  read32 s.mem 44 = vals.length ∧ read32 s.mem 48 = 116 ∧
  2147483648 ≤ read32 s.mem 112 ∧
  ∀ j, j < vals.length → read32 s.mem (116 + 4 * j) = vals.getD j 0

theorem c1_getD_append_left (l l2 : List Nat) (j : Nat) (h : j < l.length) :
    (l ++ l2).getD j 0 = l.getD j 0 := by
  induction l generalizing j with
  | nil => exact absurd h (by simp)
  | cons a t ih =>
      cases j with
      | zero => rfl
      | succ k =>
          have hk : k < t.length := by simp at h; omega
          exact ih k hk

theorem c1_getD_append_self (l : List Nat) (x : Nat) :
    (l ++ [x]).getD l.length 0 = x := by
  induction l with
  | nil => rfl
  | cons a t ih => exact ih

/-- One push in a state satisfying the invariant: the header slot 48 is
non-null, the raw length word at 112 is at least 2 to the 31 while the
total size is below it, so no reallocation happens; the element is
stored at 116 plus 4 times the count and the count is incremented. -/
theorem vectorPushU32_step (fuel : Nat) (s : PB) (len x : Nat)
    (hm : s.magic = kFixedBufferMagic) (hfs : s.full_size = 4096)
    (hnum : read32 s.mem 44 = len) (hdata : read32 s.mem 48 = 116)
    (hw : 2147483648 ≤ read32 s.mem 112) (hlen : len < 536870912) :
    (vectorPushU32 (fuel + 1) s 44 x true).mem =
      write32 (write32 s.mem (116 + 4 * len) x) 44 (len + 1) ∧
    (vectorPushU32 (fuel + 1) s 44 x true).magic = s.magic ∧
    (vectorPushU32 (fuel + 1) s 44 x true).full_size = s.full_size := by
  have hvm : isValidMagic s = true := by simp [isValidMagic, hm]
  have haddr : toAddress s 116 0 = 116 := by simp [toAddress, hvm, hfs]
  have h48 : read32 s.mem (44 + 4) = 116 := hdata
  have hne : ¬ read32 s.mem (44 + 4) = 0 := by rw [h48]; norm_num
  have hcur : ¬ read32 s.mem (toAddress s (read32 s.mem (44 + 4)) 0 - 4) =
      (read32 s.mem 44 * 4) % 4294967296 := by
    rw [h48, haddr, hnum]
    have hmod : (len * 4) % 4294967296 = len * 4 := Nat.mod_eq_of_lt (by omega)
    rw [hmod]
    show ¬ read32 s.mem 112 = len * 4
    omega
  have heq : vectorPushU32 (fuel + 1) s 44 x true =
      { s with mem := write32 (write32 s.mem (116 + 4 * len) x) 44 (len + 1) } := by
    simp only [vectorPushU32, if_neg hne, if_neg hcur]
    rw [h48, haddr, hnum]
    have hr : read32 (write32 s.mem (116 + 4 * len) x) 44 = len := by
      rw [read32_write32_disjoint _ _ _ _ (by omega)]
      exact hnum
    rw [hr]
  rw [heq]
  exact ⟨rfl, rfl, rfl⟩

/-- The invariant is preserved by a push of a 32-bit value. -/
theorem c1Inv_push (fuel : Nat) (s : PB) (vals : List Nat) (x : Nat)
    (hinv : c1Inv s vals) (hlen : vals.length < 536870912) (hx : x < 4294967296) :
    c1Inv (vectorPushU32 (fuel + 1) s 44 x true) (vals ++ [x]) := by
  obtain ⟨hm, hfs, hnum, hdata, hw, hvals⟩ := hinv
  obtain ⟨hmem, hmagic, hfull⟩ :=
    vectorPushU32_step fuel s vals.length x hm hfs hnum hdata hw hlen
  unfold c1Inv
  refine ⟨?_, ?_, ?_, ?_, ?_, ?_⟩
  · rw [hmagic]; exact hm
  · rw [hfull]; exact hfs
  · rw [hmem, read32_write32_same]
    simp only [List.length_append, List.length_singleton]
    omega
  · rw [hmem, read32_write32_disjoint _ _ _ _ (by omega),
      read32_write32_disjoint _ _ _ _ (by omega)]
    exact hdata
  · rw [hmem, read32_write32_disjoint _ _ _ _ (by omega),
      read32_write32_disjoint _ _ _ _ (by omega)]
    exact hw
  · intro j hj
    rw [hmem, read32_write32_disjoint _ _ _ _ (by omega)]
    by_cases hcase : j < vals.length
    · rw [read32_write32_disjoint _ _ _ _ (by omega), hvals j hcase,
        c1_getD_append_left vals [x] j hcase]
    · have hj2 : j = vals.length := by
        simp only [List.length_append, List.length_singleton] at hj
        omega
      subst hj2
      rw [read32_write32_same, Nat.mod_eq_of_lt hx, c1_getD_append_self]

/-- The allocation performed by the first push: with the header slot 48
still zero, VectorPush reserves an 8-byte block, which the small-block
tier serves at offset 116 inside a freshly carved size-16 run. -/
def fpA : Nat × PB := allocate 98 s1C 8 8 true true

theorem push1_mem_eq (x : Nat) :
    (vectorPushU32 99 s1C 44 x true).mem =
      write32 (write32 (write32 fpA.2.mem 48 116) 116 x) 44
        (read32 (write32 (write32 fpA.2.mem 48 116) 116 x) 44 + 1) := rfl

theorem push1_magic (x : Nat) :
    (vectorPushU32 99 s1C 44 x true).magic = kFixedBufferMagic := rfl

theorem push1_full_size (x : Nat) :
    (vectorPushU32 99 s1C 44 x true).full_size = 4096 := rfl

/-- The first push establishes the invariant for the one-element list. -/
theorem c1Inv_push1 (x : Nat) (hx : x < 4294967296) :
    c1Inv (vectorPushU32 99 s1C 44 x true) [x] := by
  unfold c1Inv
  refine ⟨push1_magic x, push1_full_size x, ?_, ?_, ?_, ?_⟩
  · rw [push1_mem_eq, read32_write32_same]
    have h0 : read32 (write32 (write32 fpA.2.mem 48 116) 116 x) 44 = 0 := by
      rw [read32_write32_disjoint _ _ _ _ (by omega)]
      decide
    rw [h0]
    rfl
  · rw [push1_mem_eq, read32_write32_disjoint _ _ _ _ (by omega),
      read32_write32_disjoint _ _ _ _ (by omega), read32_write32_same]
  · rw [push1_mem_eq, read32_write32_disjoint _ _ _ _ (by omega),
      read32_write32_disjoint _ _ _ _ (by omega)]
    decide
  · intro j hj
    have hj1 : j < 1 := by simp at hj; omega
    have hj0 : j = 0 := by omega
    subst hj0
    show read32 (vectorPushU32 99 s1C 44 x true).mem 116 = [x].getD 0 0
    rw [push1_mem_eq, read32_write32_disjoint _ _ _ _ (by omega), read32_write32_same,
      Nat.mod_eq_of_lt hx]
    rfl

/-- Pushing a list of values onto a state satisfying the invariant
extends the invariant to the appended list. -/
theorem c1Inv_pushAll (rest : List Nat) : ∀ (s : PB) (vals : List Nat),
    c1Inv s vals → vals.length + rest.length < 536870912 →
    (∀ y ∈ rest, y < 4294967296) →
    c1Inv (pushAllU32 99 s 44 rest) (vals ++ rest) := by
  induction rest with
  | nil =>
      intro s vals hinv _ _
      simpa using hinv
  | cons y t ih =>
      intro s vals hinv hlen hrest
      have hstep : c1Inv (vectorPushU32 99 s 44 y true) (vals ++ [y]) :=
        c1Inv_push 98 s vals y hinv (by simp at hlen; omega)
          (hrest y (List.mem_cons_self y t))
      have hrec := ih (vectorPushU32 99 s 44 y true) (vals ++ [y]) hstep
        (by simp at hlen ⊢; omega)
        (fun z hz => hrest z (List.mem_cons_of_mem y hz))
      simpa [pushAllU32, List.append_assoc] using hrec

/-- From the invariant, VectorGet returns the pushed value. -/
theorem c1Inv_get (s : PB) (l : List Nat) (i : Nat) (hinv : c1Inv s l)
    (hi : i < l.length) : vectorGetU32 s 44 i = l.getD i 0 := by
  obtain ⟨hm, hfs, hnum, hdata, hw, hvals⟩ := hinv
  simp only [vectorGetU32]
  have hge : ¬ i ≥ read32 s.mem 44 := by rw [hnum]; omega
  rw [if_neg hge]
  have hvm : isValidMagic s = true := by simp [isValidMagic, hm]
  have h48 : read32 s.mem (44 + 4) = 116 := hdata
  have haddr : toAddress s (read32 s.mem (44 + 4)) 0 = 116 := by
    rw [h48]
    simp [toAddress, hvm, hfs]
  rw [haddr]
  rw [if_neg (by norm_num : ¬(116 : Nat) = 0)]
  exact hvals i hi

/-- C1, amended.  Pushing the 32-bit values xs one by one onto the empty
vector whose header sits at offset 44 of the fresh region s1C, and then
reading any index i below the count with VectorGet, returns exactly the
i-th pushed value: the push/get round trip holds even though the
capacity comparison of VectorPush uses the raw, undecoded length word. -/
theorem c1_push_get_round_trip (xs : List Nat) (i : Nat)
    (hlen : xs.length < 536870912) (hvx : ∀ y ∈ xs, y < 4294967296)
    (hi : i < xs.length) :
    vectorGetU32 (pushAllU32 99 s1C 44 xs) 44 i = xs.getD i 0 := by
  cases xs with
  | nil => exact absurd hi (by simp)
  | cons x rest =>
      have hx : x < 4294967296 := hvx x (List.mem_cons_self x rest)
      have hbase : c1Inv (vectorPushU32 99 s1C 44 x true) [x] := c1Inv_push1 x hx
      have hinv : c1Inv (pushAllU32 99 (vectorPushU32 99 s1C 44 x true) 44 rest)
          ([x] ++ rest) :=
        c1Inv_pushAll rest (vectorPushU32 99 s1C 44 x true) [x] hbase
          (by simp at hlen ⊢; omega)
          (fun z hz => hvx z (List.mem_cons_of_mem x hz))
      have hget := c1Inv_get (pushAllU32 99 (vectorPushU32 99 s1C 44 x true) 44 rest)
        ([x] ++ rest) i hinv (by simpa using hi)
      exact hget

/-- Witness for the amended C1: pushing 3, 1, 2 and reading index 2
returns 2. -/
theorem c1_push_get_round_trip_witness :
    ([3, 1, 2] : List Nat).length < 536870912 ∧
    (∀ y ∈ ([3, 1, 2] : List Nat), y < 4294967296) ∧
    2 < ([3, 1, 2] : List Nat).length ∧
    vectorGetU32 (pushAllU32 99 s1C 44 [3, 1, 2]) 44 2 = ([3, 1, 2] : List Nat).getD 2 0 :=
  ⟨by decide, by decide, by decide,
    c1_push_get_round_trip [3, 1, 2] 2 (by decide) (by decide) (by decide)⟩

/-! C6, amended behaviour: the resizer argument comes from the doubling
loop, not from max(2 old, old + required). -/

/-- A moveable buffer whose free list has been exhausted: the single
16-byte free block of a fresh 64-byte moveable region is consumed whole
by a 12-byte allocation, leaving free_list null. -/
def c6w : PB := (allocate 50 (mkMovable 64) 12 4 true false).2

theorem walkLast_fuel_zero_start (t : PB) (f : Nat) : walkLast t f 0 none = none := by
  cases f with
  | zero => rfl
  | succ k => rfl

/-- C6, amended.  When the free-list walk of Allocate falls off the end
of the list in a moveable buffer (here: the free list is already empty),
the code calls the resizer with new_size produced by the doubling loop -
new_size starts at twice the old size and doubles while it is below the
required full length, as resizeNewSize renders it - records the call,
installs the new full_size, splices the fresh tail in, and retries the
allocation.  In particular the resizer argument is the doubling value,
not max(2 old_size, old_size + required). -/
theorem c6_resize_doubling (fuel : Nat) (s : PB) (n alignment : Nat) (clear : Bool)
    (hm : s.magic = kMovableBufferMagic) (hfl : s.free_list = 0) (hn : n ≠ 0) :
    ∃ s4 : PB,
      allocate (fuel + 1 + 1) s n alignment clear false =
        allocate fuel s4 (alignSize n alignment) alignment clear true ∧
      s4.resizerCalls = s.resizerCalls ++
        [(s.full_size,
          resizeNewSize (alignSize n alignment + 4) (s.full_size * 2)
            (alignSize n alignment + 4))] ∧
      s4.full_size =
        resizeNewSize (alignSize n alignment + 4) (s.full_size * 2)
          (alignSize n alignment + 4) := by
  have hne0 : ¬ n = 0 := hn
  have hfb : ¬ (false = true) := by decide
  have hmm2 : ¬ s.magic ≠ kMovableBufferMagic := by simp [hm]
  have hta : toAddress s s.free_list 0 = 0 := by simp [toAddress, hfl]
  have hta0 : ∀ t : PB, toAddress t 0 0 = 0 := fun t => rfl
  simp only [allocate, if_neg hne0, if_neg hfb]
  rw [hta]
  simp only [allocLoop, if_pos (Eq.refl (0 : Nat)), if_neg hmm2]
  rw [hfl, hta0, walkLast_fuel_zero_start]
  exact ⟨_, rfl, rfl, rfl⟩

/-- Witness for the amended C6: the exhausted 64-byte moveable buffer
c6w, a request of 20 bytes aligned to 4 (so the required full length is
24), and retry fuel 30. -/
theorem c6_resize_doubling_witness :
    c6w.magic = kMovableBufferMagic ∧ c6w.free_list = 0 ∧ (20 : Nat) ≠ 0 ∧
    ∃ s4 : PB,
      allocate (30 + 1 + 1) c6w 20 4 true false =
        allocate 30 s4 (alignSize 20 4) 4 true true ∧
      s4.resizerCalls = c6w.resizerCalls ++
        [(c6w.full_size,
          resizeNewSize (alignSize 20 4 + 4) (c6w.full_size * 2) (alignSize 20 4 + 4))] ∧
      s4.full_size =
        resizeNewSize (alignSize 20 4 + 4) (c6w.full_size * 2) (alignSize 20 4 + 4) :=
  ⟨by decide, by decide, by decide,
    c6_resize_doubling 30 c6w 20 4 true (by decide) (by decide) (by decide)⟩

/-! C3: the first-fit split policy of the free-list walk. -/


/-- Read through a next-pointer slot: none is the free_list header field,
some q the next field of the free block at offset q. -/
def readNext (s : PB) (np : Option Nat) : Nat :=
  match np with
  | none => s.free_list
  | some q => read32 s.mem (q + 4)

/-- The first-fit walk hypothesis: from fb the free-list walk visits the
blocks of pre in order, each nonzero and too small for the request, and
arrives at bo. -/
def SkipChain (s : PB) (full : Nat) : Nat → List Nat → Nat → Prop
  | fb, [], bo => fb = bo
  | fb, p :: rest, bo =>
      fb = p ∧ p ≠ 0 ∧ read32 s.mem p < full ∧
      SkipChain s full (toAddress s (read32 s.mem (p + 4)) 0) rest bo

theorem getLast_orElse_cons (p : Nat) (rest : List Nat) (prev0 : Option Nat) :
    ((p :: rest).getLast? <|> prev0) = (rest.getLast? <|> some p) := by
  induction rest generalizing p prev0 with
  | nil => rfl
  | cons b t ih =>
      rw [List.getLast?_cons_cons]
      rw [ih b prev0, ih b (some p)]

theorem allocLoop_skip (pre : List Nat) :
    ∀ (fuel : Nat) (s : PB) (n2 alignment full : Nat) (clear : Bool)
      (fb : Nat) (prev0 : Option Nat) (bo : Nat),
      SkipChain s full fb pre bo →
      allocLoop (pre.length + fuel) s n2 alignment full clear fb prev0 =
        allocLoop fuel s n2 alignment full clear bo (pre.getLast? <|> prev0) := by
  induction pre with
  | nil =>
      intro fuel s n2 alignment full clear fb prev0 bo hsk
      have hfb : fb = bo := hsk
      rw [hfb]
      simp only [List.length_nil, Nat.zero_add, List.getLast?_nil, Option.none_orElse]
  | cons p rest ih =>
      intro fuel s n2 alignment full clear fb prev0 bo hsk
      obtain ⟨hfb, hp0, hsmall, hrest⟩ := hsk
      rw [hfb]
      have hlen : (p :: rest).length + fuel = rest.length + fuel + 1 := by
        simp only [List.length_cons]
        omega
      rw [hlen]
      simp only [allocLoop, if_neg hp0, if_neg (by omega : ¬ read32 s.mem p ≥ full)]
      rw [ih fuel s n2 alignment full clear (toAddress s (read32 s.mem (p + 4)) 0) (some p) bo hrest]
      rw [getLast_orElse_cons]

theorem updateHWMOff_mem (t : PB) (o : Nat) : (updateHWMOff t o).mem = t.mem := by
  unfold updateHWMOff
  split <;> rfl

theorem updateHWMOff_free_list (t : PB) (o : Nat) :
    (updateHWMOff t o).free_list = t.free_list := by
  unfold updateHWMOff
  split <;> rfl

theorem updateHWMPtr_mem (t : PB) (p : Nat) : (updateHWMPtr t p).mem = t.mem := by
  unfold updateHWMPtr
  rw [updateHWMOff_mem]

theorem updateHWMPtr_free_list (t : PB) (p : Nat) :
    (updateHWMPtr t p).free_list = t.free_list := by
  unfold updateHWMPtr
  rw [updateHWMOff_free_list]

theorem toOffset_mem_update (s : PB) (m : Mem) (p : Nat) :
    toOffset { s with mem := m } p 0 = toOffset s p 0 := rfl

theorem read32_iteZero_out (c : Prop) [Decidable c] (m : Mem) (a len b : Nat)
    (h : b + 4 ≤ a ∨ a + len ≤ b) :
    read32 (if c then memZero m a len else m) b = read32 m b := by
  split
  · exact read32_memZero_out m a len b h
  · rfl

theorem readByte_iteZero_out (c : Prop) [Decidable c] (m : Mem) (a len b : Nat)
    (h : b < a ∨ a + len ≤ b) :
    readByte (if c then memZero m a len else m) b = readByte m b := by
  split
  · exact readByte_memZero_out m a len b h
  · rfl

theorem iteZero_app_out (c : Prop) [Decidable c] (m : Mem) (a len b : Nat)
    (h : b < a ∨ a + len ≤ b) :
    (if c then memZero m a len else m) b = m b := readByte_iteZero_out c m a len b h

theorem write32_app_out (m : Mem) (a v b : Nat) (h : b < a ∨ a + 4 ≤ b) :
    write32 m a v b = m b := readByte_write32_out m a v b h

/-- C3.  First-fit split policy.  If the free-list walk from fb skips
the too-small blocks pre and reaches the first fitting block bo (length
word bl at least n2 + 4), the allocator returns bo + 4; when the
remainder bl - (n2 + 4) is at least sizeof(FreeBlockHeader) = 8, the
length word of the returned block records exactly the aligned size n2, a
new free block covering the remainder is carved in place at bo + n2 + 4
(with length bl - (n2 + 4) and the inherited next pointer) and the
predecessor link is rewired to it, and no byte beyond the carved header
changes; otherwise the whole block is taken, the returned payload size
grows to bl - 4, the predecessor link is rewired to the old next
pointer, no residual free block is created and no byte from bo + n2 + 4
on changes. -/
theorem c3_first_fit_split_policy
    (pre : List Nat) (fuel : Nat) (s : PB) (n2 alignment : Nat) (clear : Bool)
    (fb bo : Nat) (prev0 : Option Nat)
    (hskip : SkipChain s (n2 + 4) fb pre bo)
    (hbo : ¬ bo = 0)
    (hfit : read32 s.mem bo ≥ n2 + 4)
    (hn24 : 4 ≤ n2) (hn232 : n2 < 4294967296)
    (hbl32 : read32 s.mem bo < 4294967296)
    (hnext32 : read32 s.mem (bo + 4) < 4294967296)
    (hv : isValidMagic s = true)
    (hbound : bo + read32 s.mem bo ≤ s.full_size)
    (hfs32 : s.full_size < 4294967296)
    (hq : ∀ q, (pre.getLast? <|> prev0) = some q → q + 8 ≤ bo) :
    (allocLoop (pre.length + (fuel + 1)) s n2 alignment (n2 + 4) clear fb prev0).1 = bo + 4 ∧
    (if read32 s.mem bo - (n2 + 4) ≥ 8 then
      read32 (allocLoop (pre.length + (fuel + 1)) s n2 alignment (n2 + 4) clear fb prev0).2.mem bo = n2 ∧
      read32 (allocLoop (pre.length + (fuel + 1)) s n2 alignment (n2 + 4) clear fb prev0).2.mem (bo + (n2 + 4)) = read32 s.mem bo - (n2 + 4) ∧
      read32 (allocLoop (pre.length + (fuel + 1)) s n2 alignment (n2 + 4) clear fb prev0).2.mem (bo + (n2 + 4) + 4) = read32 s.mem (bo + 4) ∧
      readNext (allocLoop (pre.length + (fuel + 1)) s n2 alignment (n2 + 4) clear fb prev0).2 (pre.getLast? <|> prev0) = bo + (n2 + 4) ∧
      (∀ a, bo + (n2 + 4) + 8 ≤ a → (allocLoop (pre.length + (fuel + 1)) s n2 alignment (n2 + 4) clear fb prev0).2.mem a = s.mem a)
    else
      read32 (allocLoop (pre.length + (fuel + 1)) s n2 alignment (n2 + 4) clear fb prev0).2.mem bo = read32 s.mem bo - 4 ∧
      readNext (allocLoop (pre.length + (fuel + 1)) s n2 alignment (n2 + 4) clear fb prev0).2 (pre.getLast? <|> prev0) = read32 s.mem (bo + 4) ∧
      (∀ a, bo + (n2 + 4) ≤ a → (allocLoop (pre.length + (fuel + 1)) s n2 alignment (n2 + 4) clear fb prev0).2.mem a = s.mem a)) := by
  rw [allocLoop_skip pre (fuel + 1) s n2 alignment (n2 + 4) clear fb prev0 bo hskip]
  rcases hnp : pre.getLast? <|> prev0 with _ | q
  · by_cases hrem : read32 s.mem bo - (n2 + 4) ≥ 8
    · simp only [allocLoop, if_neg hbo, if_pos hfit, takeStartOfFreeBlock, if_pos hrem,
        updateHWMPtr_mem, updateHWMPtr_free_list, updateHWMOff_mem, updateHWMOff_free_list,
        toOffset_mem_update, readNext, apply_ite PB.mem, apply_ite PB.free_list, ite_self]
      refine ⟨trivial, ?_, ?_, ?_, ?_, ?_⟩
      · rw [read32_iteZero_out _ _ _ _ _ (by omega),
          read32_write32_disjoint _ _ _ _ (by omega), read32_write32_same]
        omega
      · rw [read32_iteZero_out _ _ _ _ _ (by omega),
          read32_write32_disjoint _ _ _ _ (by omega),
          read32_write32_disjoint _ _ _ _ (by omega),
          read32_write32_disjoint _ _ _ _ (by omega), read32_write32_same]
        omega
      · rw [read32_iteZero_out _ _ _ _ _ (by omega),
          read32_write32_disjoint _ _ _ _ (by omega),
          read32_write32_disjoint _ _ _ _ (by omega), read32_write32_same,
          read32_write32_disjoint _ _ _ _ (by omega)]
        omega
      · have h1 : ¬(bo + (n2 + 4) = 0) := by omega
        have h2 : bo + (n2 + 4) < s.full_size := by omega
        simp [toOffset, hv, h1, h2]
      · intro a ha
        rw [iteZero_app_out _ _ _ _ _ (by omega),
          write32_app_out _ _ _ _ (by omega), write32_app_out _ _ _ _ (by omega),
          write32_app_out _ _ _ _ (by omega), write32_app_out _ _ _ _ (by omega)]
    · simp only [allocLoop, if_neg hbo, if_pos hfit, takeStartOfFreeBlock, if_neg hrem,
        updateHWMPtr_mem, updateHWMPtr_free_list, updateHWMOff_mem, updateHWMOff_free_list,
        toOffset_mem_update, readNext, apply_ite PB.mem, apply_ite PB.free_list, ite_self]
      refine ⟨trivial, ?_, trivial, ?_⟩
      · rw [read32_iteZero_out _ _ _ _ _ (by omega),
          read32_write32_disjoint _ _ _ _ (by omega), read32_write32_same]
        omega
      · intro a ha
        rw [iteZero_app_out _ _ _ _ _ (by omega),
          write32_app_out _ _ _ _ (by omega), write32_app_out _ _ _ _ (by omega)]
  · have hq8 : q + 8 ≤ bo := hq q hnp
    by_cases hrem : read32 s.mem bo - (n2 + 4) ≥ 8
    · simp only [allocLoop, if_neg hbo, if_pos hfit, takeStartOfFreeBlock, if_pos hrem,
        updateHWMPtr_mem, updateHWMPtr_free_list, updateHWMOff_mem, updateHWMOff_free_list,
        toOffset_mem_update, readNext, apply_ite PB.mem, apply_ite PB.free_list, ite_self]
      have hto : toOffset s (bo + (n2 + 4)) 0 = bo + (n2 + 4) := by
        have h1 : ¬(bo + (n2 + 4) = 0) := by omega
        have h2 : bo + (n2 + 4) < s.full_size := by omega
        simp [toOffset, hv, h1, h2]
      refine ⟨trivial, ?_, ?_, ?_, ?_, ?_⟩
      · rw [read32_iteZero_out _ _ _ _ _ (by omega),
          read32_write32_disjoint _ _ _ _ (by omega), read32_write32_same]
        omega
      · rw [read32_iteZero_out _ _ _ _ _ (by omega),
          read32_write32_disjoint _ _ _ _ (by omega),
          read32_write32_disjoint _ _ _ _ (by omega),
          read32_write32_disjoint _ _ _ _ (by omega),
          read32_write32_disjoint _ _ _ _ (by omega), read32_write32_same]
        omega
      · rw [read32_iteZero_out _ _ _ _ _ (by omega),
          read32_write32_disjoint _ _ _ _ (by omega),
          read32_write32_disjoint _ _ _ _ (by omega),
          read32_write32_disjoint _ _ _ _ (by omega), read32_write32_same,
          read32_write32_disjoint _ _ _ _ (by omega)]
        omega
      · rw [read32_iteZero_out _ _ _ _ _ (by omega),
          read32_write32_disjoint _ _ _ _ (by omega),
          read32_write32_disjoint _ _ _ _ (by omega), read32_write32_same, hto]
        omega
      · intro a ha
        rw [iteZero_app_out _ _ _ _ _ (by omega),
          write32_app_out _ _ _ _ (by omega), write32_app_out _ _ _ _ (by omega),
          write32_app_out _ _ _ _ (by omega), write32_app_out _ _ _ _ (by omega),
          write32_app_out _ _ _ _ (by omega)]
    · simp only [allocLoop, if_neg hbo, if_pos hfit, takeStartOfFreeBlock, if_neg hrem,
        updateHWMPtr_mem, updateHWMPtr_free_list, updateHWMOff_mem, updateHWMOff_free_list,
        toOffset_mem_update, readNext, apply_ite PB.mem, apply_ite PB.free_list, ite_self]
      refine ⟨trivial, ?_, ?_, ?_⟩
      · rw [read32_iteZero_out _ _ _ _ _ (by omega),
          read32_write32_disjoint _ _ _ _ (by omega), read32_write32_same,
          read32_write32_disjoint _ _ _ _ (by omega)]
        omega
      · rw [read32_iteZero_out _ _ _ _ _ (by omega),
          read32_write32_disjoint _ _ _ _ (by omega),
          read32_write32_disjoint _ _ _ _ (by omega), read32_write32_same]
        omega
      · intro a ha
        rw [iteZero_app_out _ _ _ _ _ (by omega),
          write32_app_out _ _ _ _ (by omega), write32_app_out _ _ _ _ (by omega),
          write32_app_out _ _ _ _ (by omega)]

/-- A 200-byte fixed region shaped for the C3 witness: two 8-byte
allocations and a free of the first leave the free list as the chain
(40, 12), (64, 136), so a 16-byte request must skip block 40 first-fit
and split block 64. -/
def c3w : PB := (runOps 50 (mkFixed 200)
  [AllocOp.alloc 8 8 true false, AllocOp.alloc 8 8 true false, AllocOp.free 44]).1

/-- Witness for C3: in c3w the walk skips (40, 12), the target is block
64 with length 136, the remainder 116 is at least 8, and the allocation
returns 68. -/
theorem c3_first_fit_split_policy_witness :
    SkipChain c3w 20 40 [40] 64 ∧
    read32 c3w.mem 64 ≥ 16 + 4 ∧
    read32 c3w.mem 64 - (16 + 4) ≥ 8 ∧
    (allocLoop ([40].length + (5 + 1)) c3w 16 8 (16 + 4) false 40 none).1 = 64 + 4 :=
  ⟨⟨rfl, by decide, by decide, show toAddress c3w (read32 c3w.mem (40 + 4)) 0 = 64 by decide⟩,
    by decide, by decide,
    (c3_first_fit_split_policy [40] 5 c3w 16 8 false 40 64 none
      ⟨rfl, by decide, by decide, show toAddress c3w (read32 c3w.mem (40 + 4)) 0 = 64 by decide⟩
      (by decide) (by decide) (by decide) (by decide) (by decide) (by decide) (by decide)
      (by decide) (by decide)
      (by intro q h; simp at h; omega)).1⟩

end Toolbelt
